import Mathlib

/-!
Verification of the Gardi timetable reconciliation core.

This file gives a shallow embedding of the relevant parts of
`src/gardi/core/models.py`, `src/gardi/core/filters.py` and
`src/gardi/core/parser.py`, and proves or refutes the specification
claims about them.  Python values are embedded as follows: service IDs
(which in the source are either `int`s or ETY-marker strings) become the
sum type `SID`; Python `None` becomes `Option.none`; Python floats
produced by `h*60 + m + s/60` are embedded as exact rationals (the
comparison against the integer 165 is insensitive to the rounding of
`s/60`, so the embedding is faithful on that test); mutation of the
`render` flags becomes functional record update.
-/

namespace Gardi

/-- A service identifier as it appears in the source: either a numeric
(5-digit) id or a textual token such as an ETY stabling marker. -/
inductive SID where
  | num (n : Nat)
  | tok (s : String)
deriving DecidableEq

/-- Python `str(x)` on a service id (ints print in decimal, strings as is). -/
def SID.pyStr : SID → String
  | .num n => toString n
  | .tok s => s

/-- Python `str(x)` on an optional string (`str(None) = "None"`). -/
def pyStrOptStr : Option String → String
  | none => "None"
  | some s => s

/-- Substring test on char lists, embedding Python's `sub in s`. -/
def containsSub (pat : List Char) : List Char → Bool
  | [] => pat.isEmpty
  | c :: rest => pat.isPrefixOf (c :: rest) || containsSub pat rest

/-- Embeds the source's check `"ETY" in str(x)` on a service id. -/
def SID.hasEty (x : SID) : Bool :=
  containsSub "ETY".data x.pyStr.data

/-- Whitespace characters removed by Python's `str.strip()` (ASCII range). -/
def pyIsSpace (c : Char) : Bool :=
  c = ' ' || c = '\t' || c = '\n' || c = '\r' || c = '\x0b' || c = '\x0c'

/-- Python `str.strip()` on a char list. -/
def pyStrip (l : List Char) : List Char :=
  ((l.dropWhile pyIsSpace).reverse.dropWhile pyIsSpace).reverse

/-- Python `str.upper()` (the station names involved are ASCII). -/
def pyUpper (s : String) : String :=
  String.mk (s.data.map Char.toUpper)

/-! ## Time parsing: `StationEvent._timeToMinutes` (models.py 565-580)

`datetime.strptime` with format `"%H:%M:%S"` (resp. `"%H:%M"`) accepts
exactly three (resp. two) colon-separated fields of one or two decimal
digits whose values are in range (hour below 24, minute and second below
60; `datetime` rejects leap seconds), with nothing left over.  We embed
that accept-set directly. -/

/-- Split a char list on `':'` (the only separator of the two formats). -/
def splitColon : List Char → List (List Char)
  | [] => [[]]
  | c :: rest =>
    if c = ':' then [] :: splitColon rest
    else
      match splitColon rest with
      | [] => [[c]]
      | h :: t => (c :: h) :: t

/-- Value of a decimal digit character. -/
def digitVal (c : Char) : Nat := c.toNat - 48

/-- Parse one strptime field: one or two decimal digits. -/
def parseField : List Char → Option Nat
  | [c] => if c.isDigit then some (digitVal c) else none
  | [c1, c2] => if c1.isDigit && c2.isDigit then some (10 * digitVal c1 + digitVal c2) else none
  | _ => none

/-- `datetime.strptime(t, "%H:%M")` on a stripped char list. -/
def parseHM (l : List Char) : Option (Nat × Nat) :=
  match splitColon l with
  | [hs, ms] =>
    match parseField hs, parseField ms with
    | some h, some m => if h ≤ 23 && m ≤ 59 then some (h, m) else none
    | _, _ => none
  | _ => none

/-- `datetime.strptime(t, "%H:%M:%S")` on a stripped char list. -/
def parseHMS (l : List Char) : Option (Nat × Nat × Nat) :=
  match splitColon l with
  | [hs, ms, ss] =>
    match parseField hs, parseField ms, parseField ss with
    | some h, some m, some s => if h ≤ 23 && m ≤ 59 && s ≤ 59 then some (h, m, s) else none
    | _, _, _ => none
  | _ => none

/-- The wrap-around applied by `_timeToMinutes`:
`if minutes < 165: minutes += 1440`. -/
def wrapTime (r : ℚ) : ℚ := if r < 165 then r + 1440 else r

/-- `StationEvent._timeToMinutes` on the char list of the input string:
empty input is `None`; otherwise strip, try `%H:%M:%S` then `%H:%M`,
compute `hour*60 + minute + second/60` and wrap. -/
def timeToMinutesL (l : List Char) : Option ℚ :=
  if l = [] then none
  else
    let t := pyStrip l
    match parseHMS t with
    | some (h, m, s) => some (wrapTime ((h : ℚ) * 60 + m + s / 60))
    | none =>
      match parseHM t with
      | some (h, m) => some (wrapTime ((h : ℚ) * 60 + m))
      | none => none

/-- `StationEvent._timeToMinutes` on a string. -/
def timeToMinutes (s : String) : Option ℚ :=
  timeToMinutesL s.data

/-- Render a number below 100 as two decimal digit characters
(zero padded), as in the clock strings of the working timetable. -/
def twoDigits (n : Nat) : List Char :=
  [Nat.digitChar (n / 10), Nat.digitChar (n % 10)]

/-- A zero-padded `HH:MM` clock string. -/
def clockHM (h m : Nat) : String :=
  String.mk (twoDigits h ++ ':' :: twoDigits m)

/-- A zero-padded `HH:MM:SS` clock string. -/
def clockHMS (h m s : Nat) : String :=
  String.mk (twoDigits h ++ ':' :: twoDigits m ++ ':' :: twoDigits s)

/-- The default inclusive time window of a `FilterQuery`
(filters.py line 22): `(165, 1605)`. -/
def defaultInTimePeriod : ℚ × ℚ := (165, 1605)

lemma isDigit_digitChar (d : Nat) (hd : d ≤ 9) : (Nat.digitChar d).isDigit = true := by
  interval_cases d <;> decide

lemma digitVal_digitChar (d : Nat) (hd : d ≤ 9) : digitVal (Nat.digitChar d) = d := by
  interval_cases d <;> decide

lemma digitChar_ne_colon (d : Nat) (hd : d ≤ 9) : Nat.digitChar d ≠ ':' := by
  interval_cases d <;> decide

lemma pyIsSpace_digitChar (d : Nat) (hd : d ≤ 9) : pyIsSpace (Nat.digitChar d) = false := by
  interval_cases d <;> decide

lemma dropWhile_eq_self_of (p : Char → Bool) (l : List Char)
    (h : ∀ c ∈ l, p c = false) : l.dropWhile p = l := by
  cases l with
  | nil => rfl
  | cons a t => simp [List.dropWhile_cons, h a (List.mem_cons_self a t)]

lemma pyStrip_eq_self (l : List Char) (h : ∀ c ∈ l, pyIsSpace c = false) :
    pyStrip l = l := by
  unfold pyStrip
  rw [dropWhile_eq_self_of _ _ h,
    dropWhile_eq_self_of _ _ (fun c hc => h c (List.mem_reverse.mp hc)),
    List.reverse_reverse]

lemma splitColon_five (a b c d : Char) (ha : a ≠ ':') (hb : b ≠ ':')
    (hc : c ≠ ':') (hd : d ≠ ':') :
    splitColon [a, b, ':', c, d] = [[a, b], [c, d]] := by
  simp [splitColon, ha, hb, hc, hd]

lemma splitColon_eight (a b c d e f : Char) (ha : a ≠ ':') (hb : b ≠ ':')
    (hc : c ≠ ':') (hd : d ≠ ':') (he : e ≠ ':') (hf : f ≠ ':') :
    splitColon [a, b, ':', c, d, ':', e, f] = [[a, b], [c, d], [e, f]] := by
  simp [splitColon, ha, hb, hc, hd, he, hf]

lemma parseField_two (x y : Nat) (hx : x ≤ 9) (hy : y ≤ 9) :
    parseField [Nat.digitChar x, Nat.digitChar y] = some (10 * x + y) := by
  simp [parseField, isDigit_digitChar _ hx, isDigit_digitChar _ hy,
    digitVal_digitChar _ hx, digitVal_digitChar _ hy]

lemma pyStrip_clockHM (h m : Nat) (hh : h ≤ 99) (hm : m ≤ 99) :
    pyStrip (twoDigits h ++ ':' :: twoDigits m) = twoDigits h ++ ':' :: twoDigits m := by
  apply pyStrip_eq_self
  intro c hc
  simp only [twoDigits, List.cons_append, List.nil_append, List.mem_cons,
    List.not_mem_nil, or_false] at hc
  rcases hc with h1 | h1 | h1 | h1 | h1 <;> subst h1 <;>
    first
      | rfl
      | exact pyIsSpace_digitChar _ (by omega)

lemma parseHM_clock (h m : Nat) (hh : h ≤ 23) (hm : m ≤ 59) :
    parseHM (twoDigits h ++ ':' :: twoDigits m) = some (h, m) := by
  have hh1 : h / 10 ≤ 9 := by omega
  have hh2 : h % 10 ≤ 9 := by omega
  have hm1 : m / 10 ≤ 9 := by omega
  have hm2 : m % 10 ≤ 9 := by omega
  unfold parseHM
  rw [show twoDigits h ++ ':' :: twoDigits m =
      [Nat.digitChar (h / 10), Nat.digitChar (h % 10), ':',
       Nat.digitChar (m / 10), Nat.digitChar (m % 10)] from rfl]
  rw [splitColon_five _ _ _ _ (digitChar_ne_colon _ hh1) (digitChar_ne_colon _ hh2)
    (digitChar_ne_colon _ hm1) (digitChar_ne_colon _ hm2)]
  simp [parseField_two _ _ hh1 hh2, parseField_two _ _ hm1 hm2,
    Nat.div_add_mod, hh, hm]

lemma parseHMS_clock (h m s : Nat) (hh : h ≤ 23) (hm : m ≤ 59) (hs : s ≤ 59) :
    parseHMS (twoDigits h ++ ':' :: twoDigits m ++ ':' :: twoDigits s) = some (h, m, s) := by
  have hh1 : h / 10 ≤ 9 := by omega
  have hh2 : h % 10 ≤ 9 := by omega
  have hm1 : m / 10 ≤ 9 := by omega
  have hm2 : m % 10 ≤ 9 := by omega
  have hs1 : s / 10 ≤ 9 := by omega
  have hs2 : s % 10 ≤ 9 := by omega
  unfold parseHMS
  rw [show twoDigits h ++ ':' :: twoDigits m ++ ':' :: twoDigits s =
      [Nat.digitChar (h / 10), Nat.digitChar (h % 10), ':',
       Nat.digitChar (m / 10), Nat.digitChar (m % 10), ':',
       Nat.digitChar (s / 10), Nat.digitChar (s % 10)] from rfl]
  rw [splitColon_eight _ _ _ _ _ _ (digitChar_ne_colon _ hh1) (digitChar_ne_colon _ hh2)
    (digitChar_ne_colon _ hm1) (digitChar_ne_colon _ hm2)
    (digitChar_ne_colon _ hs1) (digitChar_ne_colon _ hs2)]
  simp [parseField_two _ _ hh1 hh2, parseField_two _ _ hm1 hm2, parseField_two _ _ hs1 hs2,
    Nat.div_add_mod, hh, hm, hs]

lemma parseHMS_of_two_fields (l : List Char) (x y : List Char)
    (h : splitColon l = [x, y]) : parseHMS l = none := by
  unfold parseHMS
  rw [h]

lemma timeToMinutes_0230 : timeToMinutes "02:30" = some 1590 := by
  unfold timeToMinutes timeToMinutesL
  rw [if_neg (by decide : ¬("02:30".data = []))]
  have h1 : parseHMS (pyStrip "02:30".data) = none := by decide
  have h2 : parseHM (pyStrip "02:30".data) = some (2, 30) := by decide
  simp only [h1, h2, wrapTime]
  norm_num

lemma pyStrip_clockHMS (h m s : Nat) (hh : h ≤ 99) (hm : m ≤ 99) (hs : s ≤ 99) :
    pyStrip (twoDigits h ++ ':' :: twoDigits m ++ ':' :: twoDigits s) =
      twoDigits h ++ ':' :: twoDigits m ++ ':' :: twoDigits s := by
  apply pyStrip_eq_self
  intro c hc
  simp only [twoDigits, List.cons_append, List.nil_append, List.mem_cons,
    List.not_mem_nil, or_false] at hc
  rcases hc with h1 | h1 | h1 | h1 | h1 | h1 | h1 | h1 <;> subst h1 <;>
    first
      | rfl
      | exact pyIsSpace_digitChar _ (by omega)

lemma parseHM_bounds (l : List Char) (h m : Nat) (H : parseHM l = some (h, m)) :
    h ≤ 23 ∧ m ≤ 59 := by
  unfold parseHM at H
  split at H
  case _ =>
    split at H
    case _ h' m' eh em =>
      split at H
      case isTrue hg =>
        injection H with H1
        injection H1 with H1 H2
        subst H1; subst H2
        simp only [Bool.and_eq_true, decide_eq_true_eq] at hg
        exact hg
      case isFalse => cases H
    case _ => cases H
  case _ => cases H

lemma parseHMS_bounds (l : List Char) (h m s : Nat)
    (H : parseHMS l = some (h, m, s)) : h ≤ 23 ∧ m ≤ 59 ∧ s ≤ 59 := by
  unfold parseHMS at H
  split at H
  case _ =>
    split at H
    case _ h' m' s' eh em es =>
      split at H
      case isTrue hg =>
        injection H with H1
        injection H1 with H1 H2
        injection H2 with H2 H3
        subst H1; subst H2; subst H3
        simp only [Bool.and_eq_true, decide_eq_true_eq] at hg
        exact ⟨hg.1.1, hg.1.2, hg.2⟩
      case isFalse => cases H
    case _ => cases H
  case _ => cases H

lemma timeToMinutes_0915 : timeToMinutes "09:15" = some 555 := by
  unfold timeToMinutes timeToMinutesL
  rw [if_neg (by decide : ¬("09:15".data = []))]
  have h1 : parseHMS (pyStrip "09:15".data) = none := by decide
  have h2 : parseHM (pyStrip "09:15".data) = some (9, 15) := by decide
  simp only [h1, h2, wrapTime]
  norm_num

/-- Claim C4: for every time string of the form `H:MM` or `H:MM:SS`, the
conversion to minutes-since-midnight applies the wrap-around rule (a raw
value below 165 minutes is shifted by 1440, a raw value at or above 165
is returned unchanged); in particular "02:30" converts to 1590 and
"09:15" to 555; and any string both clock parsers reject converts to a
null time. -/
theorem C4_time_wrap :
    (∀ h m : Nat, h ≤ 23 → m ≤ 59 →
      timeToMinutes (clockHM h m) =
        some (if (h : ℚ) * 60 + m < 165 then (h : ℚ) * 60 + m + 1440 else (h : ℚ) * 60 + m)) ∧
    (∀ h m s : Nat, h ≤ 23 → m ≤ 59 → s ≤ 59 →
      timeToMinutes (clockHMS h m s) =
        some (if (h : ℚ) * 60 + m + s / 60 < 165 then (h : ℚ) * 60 + m + s / 60 + 1440
              else (h : ℚ) * 60 + m + s / 60)) ∧
    timeToMinutes "02:30" = some 1590 ∧
    timeToMinutes "09:15" = some 555 ∧
    (∀ str : String, parseHMS (pyStrip str.data) = none →
      parseHM (pyStrip str.data) = none → timeToMinutes str = none) := by
  refine ⟨?_, ?_, timeToMinutes_0230, timeToMinutes_0915, ?_⟩
  · intro h m hh hm
    have e1 := pyStrip_clockHM h m (by omega) (by omega)
    have e2 : parseHMS (twoDigits h ++ ':' :: twoDigits m) = none := by
      refine parseHMS_of_two_fields _ (twoDigits h) (twoDigits m) ?_
      rw [show twoDigits h ++ ':' :: twoDigits m =
          [Nat.digitChar (h / 10), Nat.digitChar (h % 10), ':',
           Nat.digitChar (m / 10), Nat.digitChar (m % 10)] from rfl]
      exact splitColon_five _ _ _ _ (digitChar_ne_colon _ (by omega))
        (digitChar_ne_colon _ (by omega)) (digitChar_ne_colon _ (by omega))
        (digitChar_ne_colon _ (by omega))
    have e3 := parseHM_clock h m hh hm
    unfold timeToMinutes clockHM timeToMinutesL
    rw [if_neg (by simp [twoDigits] : ¬((String.mk (twoDigits h ++ ':' :: twoDigits m)).data = []))]
    simp only [e1, e2, e3, wrapTime]
  · intro h m s hh hm hs
    have e1 := pyStrip_clockHMS h m s (by omega) (by omega) (by omega)
    have e2 := parseHMS_clock h m s hh hm hs
    unfold timeToMinutes clockHMS timeToMinutesL
    rw [if_neg (by simp [twoDigits] :
      ¬((String.mk (twoDigits h ++ ':' :: twoDigits m ++ ':' :: twoDigits s)).data = []))]
    simp only [e1, e2, wrapTime]
  · intro str h1 h2
    unfold timeToMinutes timeToMinutesL
    by_cases he : str.data = []
    · rw [if_pos he]
    · rw [if_neg he]
      simp only [h1, h2]

/-- Witness for C4 at concrete inputs. -/
theorem C4_time_wrap_witness :
    timeToMinutes (clockHM 9 15) = some 555 ∧
    timeToMinutes (clockHMS 1 30 30 ) = some (90 + (1 : ℚ) / 2 + 1440) := by
  constructor
  · rw [C4_time_wrap.1 9 15 (by omega) (by omega)]
    norm_num
  · rw [C4_time_wrap.2.1 1 30 30 (by omega) (by omega) (by omega)]
    norm_num

/-- Claim C10: time-string conversion returns either null or a value `v`
with `165 ≤ v < 1605`; hence every non-null parsed event time lies inside
the default filter time window `(165, 1605)` and never falls below 165 or
at or above 1605. -/
theorem C10_time_in_default_window :
    ∀ (s : String) (v : ℚ), timeToMinutes s = some v →
      (165 ≤ v ∧ v < 1605) ∧
      defaultInTimePeriod.1 ≤ v ∧ v ≤ defaultInTimePeriod.2 := by
  intro s v H
  have key : 165 ≤ v ∧ v < 1605 := by
    unfold timeToMinutes timeToMinutesL at H
    by_cases he : s.data = []
    · rw [if_pos he] at H; cases H
    · rw [if_neg he] at H
      rcases h3 : parseHMS (pyStrip s.data) with _ | ⟨hh, mm, ss⟩
      · rcases h2 : parseHM (pyStrip s.data) with _ | ⟨hh, mm⟩
        · simp only [h3, h2] at H; cases H
        · simp only [h3, h2] at H
          injection H with H1
          obtain ⟨b1, b2⟩ := parseHM_bounds _ _ _ h2
          have c1 : (hh : ℚ) ≤ 23 := by exact_mod_cast b1
          have c2 : (mm : ℚ) ≤ 59 := by exact_mod_cast b2
          have c0 : (0 : ℚ) ≤ (hh : ℚ) * 60 + mm := by positivity
          subst H1
          unfold wrapTime
          split_ifs with hw
          · constructor <;> linarith
          · constructor <;> linarith
      · simp only [h3] at H
        injection H with H1
        obtain ⟨b1, b2, b3⟩ := parseHMS_bounds _ _ _ _ h3
        have c1 : (hh : ℚ) ≤ 23 := by exact_mod_cast b1
        have c2 : (mm : ℚ) ≤ 59 := by exact_mod_cast b2
        have c3 : (ss : ℚ) < 60 := by exact_mod_cast (by omega : ss < 60)
        have c4 : (ss : ℚ) / 60 < 1 := by
          rw [div_lt_one (by norm_num : (0 : ℚ) < 60)]
          exact c3
        have c5 : (0 : ℚ) ≤ (ss : ℚ) / 60 := by positivity
        have c0 : (0 : ℚ) ≤ (hh : ℚ) * 60 + mm := by positivity
        subst H1
        unfold wrapTime
        split_ifs with hw
        · constructor <;> linarith
        · constructor <;> linarith
  exact ⟨key, key.1, le_of_lt key.2⟩

/-- Witness for C10 at a concrete input. -/
theorem C10_time_in_default_window_witness :
    (165 ≤ (1590 : ℚ) ∧ (1590 : ℚ) < 1605) ∧
    defaultInTimePeriod.1 ≤ (1590 : ℚ) ∧ (1590 : ℚ) ≤ defaultInTimePeriod.2 :=
  C10_time_in_default_window "02:30" 1590 timeToMinutes_0230

/-! ## AC-requirement extraction: `TimeTableParser.extractACRequirement`
(parser.py 434-442).  The source starts a counter at `-1`, increments it
at every cell containing one of the marker substrings, and returns `True`
only when a later iteration begins with the counter at `1`. -/

/-- The per-cell marker test: `"Air" in cell or "Condition" in cell or
"AC" in cell`, on the stripped cell. -/
def acMarker (cell : String) : Bool :=
  let c := pyStrip cell.data
  containsSub "Air".data c || containsSub "Condition".data c || containsSub "AC".data c

/-- The loop of `extractACRequirement`, with the running counter. -/
def extractACLoop : List String → Int → Bool
  | [], _ => false
  | cell :: rest, isAC =>
    if isAC = 1 then true
    else extractACLoop rest (if acMarker cell then isAC + 1 else isAC)

/-- `TimeTableParser.extractACRequirement` (the whole column is scanned;
the caller passes the full cleaned column). -/
def extractACRequirement (serviceCol : List String) : Bool :=
  extractACLoop serviceCol (-1)

/-- Number of marker cells in a column fragment. -/
def countMarkers (l : List String) : Nat := (l.filter (fun c => acMarker c)).length

lemma extractACLoop_one (c : String) (rest : List String) :
    extractACLoop (c :: rest) 1 = true := by
  simp [extractACLoop]

lemma countMarkers_cons (c : String) (l : List String) :
    countMarkers (c :: l) = (if acMarker c then 1 else 0) + countMarkers l := by
  by_cases h : acMarker c
  · simp [countMarkers, List.filter_cons, h]
    omega
  · simp [countMarkers, List.filter_cons, h]

lemma extractACLoop_spec (cells : List String) (n : Int) (hn : n ≤ 0) :
    (extractACLoop cells n = true ↔ 1 - n ≤ (countMarkers cells.dropLast : Int)) := by
  induction cells generalizing n with
  | nil =>
    simp only [extractACLoop, List.dropLast_nil]
    constructor
    · intro h; cases h
    · intro h
      exfalso
      simp only [countMarkers, List.filter_nil, List.length_nil] at h
      omega
  | cons c rest ih =>
    have hn1 : ¬(n = 1) := by omega
    rw [show extractACLoop (c :: rest) n =
        extractACLoop rest (if acMarker c then n + 1 else n) by
      simp [extractACLoop, hn1]]
    cases rest with
    | nil =>
      simp only [extractACLoop, List.dropLast_single]
      constructor
      · intro h; cases h
      · intro h
        exfalso
        simp only [countMarkers, List.filter_nil, List.length_nil] at h
        omega
    | cons r rs =>
      rw [List.dropLast_cons₂, countMarkers_cons]
      by_cases hm : acMarker c
      · rw [if_pos hm]
        by_cases h0 : n = 0
        · subst h0
          rw [show (0 : Int) + 1 = 1 from rfl, extractACLoop_one]
          simp only [if_pos hm, true_iff]
          have : (0 : Int) ≤ (countMarkers (List.dropLast (r :: rs)) : Int) := by positivity
          omega
        · have hn2 : n + 1 ≤ 0 := by omega
          rw [ih (n + 1) hn2]
          rw [if_pos hm]
          omega
      · rw [if_neg hm, ih n hn, if_neg hm]
        omega

/-- Claim C9, amended: the AC requirement is `true` exactly when the
column holds at least two marker cells among all but its last cell
(equivalently, at least two marker cells with a further cell after the
second); a column with a single marker cell, or none, yields `false`,
and the scan covers the whole column, not only the header band. -/
theorem C9_ac_requirement_amended :
    ∀ cells : List String,
      extractACRequirement cells = true ↔ 2 ≤ countMarkers cells.dropLast := by
  intro cells
  rw [extractACRequirement, extractACLoop_spec cells (-1) (by norm_num)]
  omega

/-- Counterexample to claim C9 as stated: a column with a marker cell for
which the extraction still returns `false` (a single marker never sets
the AC requirement). -/
theorem C9_ac_requirement_counterexample :
    extractACRequirement ["93001", "AC 12 CAR", "05:30"] = false ∧
    acMarker "AC 12 CAR" = true := by
  constructor
  · rfl
  · rfl

/-! ## Rake assignment: `TimeTable.assignRakes` (models.py 284-294) and
`Rake.__init__` (models.py 323-330). -/

/-- A physical rake (`Rake.__init__`: non-AC with 12 cars; the velocity
and link-assignment fields play no part in the claims). -/
structure RakeE where
  rakeId : Nat
  isAC : Bool
  rakeSize : Nat
deriving DecidableEq

/-- `Rake(rakeId)`. -/
def mkRake (rakeId : Nat) : RakeE :=
  { rakeId := rakeId, isAC := false, rakeSize := 12 }

/-- The two per-service fields read by `assignRakes`. -/
structure SvcRakeReq where
  needsACRake : Bool
  rakeSizeReq : Option Nat
deriving DecidableEq

/-- Python truthiness of `svc.rakeSizeReq` (None and 0 are falsy). -/
def truthySize : Option Nat → Bool
  | none => false
  | some n => n ≠ 0

/-- The inner loop of `assignRakes`: test AC first, then the size
requirement, and break at the first service that sets either. -/
def assignRakeLoop : List SvcRakeReq → RakeE → RakeE
  | [], r => r
  | svc :: rest, r =>
    if svc.needsACRake then { r with isAC := true }
    else if truthySize svc.rakeSizeReq then { r with rakeSize := svc.rakeSizeReq.getD 0 }
    else assignRakeLoop rest r

/-- The rake built for the cycle at index `i` with the given path. -/
def assignRake (path : List SvcRakeReq) (i : Nat) : RakeE :=
  assignRakeLoop path (mkRake i)

/-- A rake-cycle as seen by `assignRakes`. -/
structure RakeCycleR where
  servicePath : List SvcRakeReq
deriving DecidableEq

/-- `TimeTable.assignRakes`: each cycle, in order, receives the rake
produced from its path. -/
def assignRakes (cycles : List RakeCycleR) : List (RakeCycleR × RakeE) :=
  cycles.mapIdx (fun i rc => (rc, assignRake rc.servicePath i))

/-- What the loop actually computes: the first service that needs AC or
declares a truthy car count decides the whole rake, and only one of the
two attributes is ever changed from the defaults (non-AC, 12 cars). -/
def rakeSpec (path : List SvcRakeReq) (i : Nat) : RakeE :=
  match path.find? (fun s => s.needsACRake || truthySize s.rakeSizeReq) with
  | none => mkRake i
  | some s =>
    if s.needsACRake then { mkRake i with isAC := true }
    else { mkRake i with rakeSize := s.rakeSizeReq.getD 0 }

lemma assignRakeLoop_spec (path : List SvcRakeReq) (r : RakeE) :
    assignRakeLoop path r =
      match path.find? (fun s => s.needsACRake || truthySize s.rakeSizeReq) with
      | none => r
      | some s =>
        if s.needsACRake then { r with isAC := true }
        else { r with rakeSize := s.rakeSizeReq.getD 0 } := by
  induction path with
  | nil => rfl
  | cons svc rest ih =>
    by_cases h1 : svc.needsACRake
    · simp [assignRakeLoop, List.find?_cons, h1]
    · by_cases h2 : truthySize svc.rakeSizeReq
      · simp [assignRakeLoop, List.find?_cons, h1, h2]
      · simp [assignRakeLoop, List.find?_cons, h1, h2, ih]

/-- Claim C8, amended: every cycle is assigned a rake that is non-AC and
12-car by default; the path is scanned in order and the first service
that either requires AC or declares a truthy car count decides the rake:
if it requires AC the rake becomes AC (its car count stays 12),
otherwise the rake's car count becomes that service's requirement (and
the rake stays non-AC even when a later path service requires AC). -/
theorem C8_assign_rakes_amended :
    ∀ cycles : List RakeCycleR,
      assignRakes cycles = cycles.mapIdx (fun i rc => (rc, rakeSpec rc.servicePath i)) := by
  intro cycles
  unfold assignRakes
  congr 1
  funext i rc
  rw [assignRake, assignRakeLoop_spec, rakeSpec]

/-- Counterexample to claim C8 as stated: a path whose second service
requires AC yields a non-AC rake (the scan broke at the first service,
which declared the default 15-car requirement), and the default rake has
12 cars, not 15. -/
theorem C8_assign_rakes_counterexample :
    (assignRake [⟨false, some 15⟩, ⟨true, some 15⟩] 0).isAC = false ∧
    (⟨true, some 15⟩ : SvcRakeReq) ∈ [(⟨false, some 15⟩ : SvcRakeReq), ⟨true, some 15⟩] ∧
    (⟨true, some 15⟩ : SvcRakeReq).needsACRake = true ∧
    (mkRake 0).rakeSize = 12 := by
  refine ⟨rfl, ?_, rfl, rfl⟩
  simp

/-! ## Rake-cycle validation: `TimeTable.validateRakeCycles`
(models.py 300-321). -/

/-- A service as seen by the validator: only its id list matters. -/
structure ServiceV where
  serviceId : List SID
deriving DecidableEq

/-- A rake-cycle stub with its resolved path. -/
structure RakeCycleV where
  linkName : String
  serviceIds : List SID
  servicePath : List ServiceV
deriving DecidableEq

/-- `[svc.serviceId[0] for svc in rc.servicePath]` (services reaching the
validator always carry at least one id; the default covers the empty
case the source would crash on). -/
def wttIds (rc : RakeCycleV) : List SID :=
  rc.servicePath.map (fun s => s.serviceId.headD (SID.num 0))

/-- The per-cycle test of `validateRakeCycles`: `true` when the cycle is
kept (the loop `continue`s), `false` when `(rc, wttPath)` is appended to
`conflictingLinks`.  `summneryPath[:-2]` is Python slicing, so the
second tolerated case tests the marker on the summary's third-from-last
id (`summaryPathRed1[-1]`), not its second-from-last. -/
def validateKeeps (summaryPath wttPath : List SID) : Bool :=
  if wttPath = summaryPath then true
  else if summaryPath.dropLast = wttPath then
    SID.hasEty (summaryPath.getLastD (SID.num 0))
  else if summaryPath.dropLast.dropLast = wttPath then
    SID.hasEty ((summaryPath.dropLast.dropLast).getLastD (SID.num 0)) &&
      SID.hasEty (summaryPath.getLastD (SID.num 0))
  else false

/-- `validateRakeCycles`: returns the surviving cycles and
`conflictingLinks` (the removal by `list.remove` keeps exactly the
non-conflicting cycles, the cycles being distinct objects). -/
def validateRakeCycles (cycles : List RakeCycleV) :
    List RakeCycleV × List (RakeCycleV × List SID) :=
  (cycles.filter (fun rc => validateKeeps rc.serviceIds (wttIds rc)),
   (cycles.filter (fun rc => !(validateKeeps rc.serviceIds (wttIds rc)))).map
     (fun rc => (rc, wttIds rc)))

/-- The amended tolerance rule, stated declaratively: exact match, or a
single trailing declared id containing an ETY marker, or (when the
single-trailing case does not apply) two trailing declared ids dropped
with the ETY marker present in the last declared id and in the last id
of the retained prefix. -/
def tolerates (s w : List SID) : Prop :=
  w = s ∨
  (s.dropLast = w ∧ SID.hasEty (s.getLastD (SID.num 0)) = true) ∨
  (s.dropLast ≠ w ∧ s.dropLast.dropLast = w ∧
    SID.hasEty ((s.dropLast.dropLast).getLastD (SID.num 0)) = true ∧
    SID.hasEty (s.getLastD (SID.num 0)) = true)

/-- Claim C1, amended: a cycle is kept with no conflict exactly when the
resolved path satisfies the tolerance rule actually implemented (exact
match; one trailing declared id bearing an ETY marker; or two trailing
ids dropped with ETY markers in the last declared id and in the last
retained id), and otherwise the pair (cycle, resolved id sequence) goes
to `conflictingLinks` and the cycle leaves the active set. -/
theorem C1_validate_amended :
    (∀ s w : List SID, validateKeeps s w = true ↔ tolerates s w) ∧
    (∀ (cycles : List RakeCycleV) (rc : RakeCycleV),
      (rc ∈ (validateRakeCycles cycles).1 ↔
        rc ∈ cycles ∧ tolerates rc.serviceIds (wttIds rc)) ∧
      ((rc, wttIds rc) ∈ (validateRakeCycles cycles).2 ↔
        rc ∈ cycles ∧ ¬ tolerates rc.serviceIds (wttIds rc))) := by
  have main : ∀ s w : List SID, validateKeeps s w = true ↔ tolerates s w := by
    intro s w
    unfold validateKeeps tolerates
    split_ifs with h1 h2 h3
    · simp [h1]
    · simp [h1, h2]
    · constructor
      · intro h
        simp only [Bool.and_eq_true] at h
        exact Or.inr (Or.inr ⟨h2, h3, h.1, h.2⟩)
      · intro h
        rcases h with h | h | h
        · exact absurd h h1
        · exact absurd h.1 h2
        · simp only [Bool.and_eq_true]
          exact ⟨h.2.2.1, h.2.2.2⟩
    · constructor
      · intro h; cases h
      · intro h
        rcases h with h | h | h
        · exact absurd h h1
        · exact absurd h.1 h2
        · exact absurd h.2.1 h3
  refine ⟨main, ?_⟩
  intro cycles rc
  constructor
  · rw [validateRakeCycles]
    simp only [List.mem_filter, main]
  · rw [validateRakeCycles]
    simp only [List.mem_map, List.mem_filter, Bool.not_eq_true']
    constructor
    · rintro ⟨rc2, ⟨hmem, hkeep⟩, heq⟩
      have hrc : rc2 = rc := congrArg Prod.fst heq
      subst hrc
      refine ⟨hmem, fun htol => ?_⟩
      rw [← main, hkeep] at htol
      cases htol
    · rintro ⟨hmem, htol⟩
      refine ⟨rc, ⟨hmem, ?_⟩, rfl⟩
      rw [← main] at htol
      simpa using htol

/-- Counterexample to claim C1 as stated: a stub whose two divergent
trailing ids both carry the ETY stabling marker is nevertheless recorded
as a conflict and removed, because the source tests the marker on the
third-from-last declared id. -/
theorem C1_validate_counterexample :
    validateKeeps [SID.num 93001, SID.tok "ETY1", SID.tok "ETY2"] [SID.num 93001] = false ∧
    ([SID.num 93001, SID.tok "ETY1", SID.tok "ETY2"] : List SID).dropLast.dropLast =
      [SID.num 93001] ∧
    SID.hasEty (SID.tok "ETY1") = true ∧
    SID.hasEty (SID.tok "ETY2") = true ∧
    (validateRakeCycles
      [⟨"A", [SID.num 93001, SID.tok "ETY1", SID.tok "ETY2"], [⟨[SID.num 93001]⟩]⟩]).1 = [] := by
  refine ⟨?_, rfl, rfl, rfl, ?_⟩ <;> decide

/-! ## Path fixing: `TimeTable.fixPath` (models.py 195-219) and the
matching step of `generateRakeCycles` (models.py 236-249). -/

/-- A service as seen by `fixPath`: its id list and its outbound
`linkedTo` reference (a digit string or `None` after extraction). -/
structure SvcF where
  serviceId : List SID
  linkedTo : Option String
deriving DecidableEq

/-- A rake-cycle stub as seen by `fixPath`. -/
structure StubF where
  linkName : String
  serviceIds : List SID
  undefinedIds : List (String × SID)
deriving DecidableEq

/-- Insert-or-overwrite on an association list, embedding assignment into
a Python dict (insertion order kept, later values overwrite). -/
def alistInsert (m : List (String × SvcF)) (k : String) (v : SvcF) : List (String × SvcF) :=
  if m.any (fun p => p.1 = k) then m.map (fun p => if p.1 = k then (k, v) else p)
  else m ++ [(k, v)]

/-- `{str(s.serviceId[0]): s for s in self.suburbanServices}` (services
reaching this dict always carry at least one id). -/
def pyDict (suburban : List SvcF) : List (String × SvcF) :=
  suburban.foldl (fun m s => alistInsert m (s.serviceId.headD (SID.num 0)).pyStr s) []

/-- `dict.get(k)`. -/
def dictGet (m : List (String × SvcF)) (k : String) : Option SvcF :=
  (m.find? (fun p => p.1 = k)).map (fun p => p.2)

/-- `any(str(sid) == str(sv.linkedTo) for sv in allServices.values())`. -/
def appearsAsLinkedTo (m : List (String × SvcF)) (sid : SID) : Bool :=
  (m.map (fun p => p.2)).any (fun sv => sid.pyStr = pyStrOptStr sv.linkedTo)

/-- The four ways `fixPath` can end: marking the stub INVALID (returning
`[]`), raising a `ValueError`, returning a reconstructed path, or
falling off the end of the function (Python returns `None`). -/
inductive FixResult where
  | invalid
  | error
  | path (p : List SvcF)
  | noneResult
deriving DecidableEq

/-- The reconstruction loop of `fixPath`: look every declared id up in
the dict, raising (None) at the first miss. -/
def buildPath (m : List (String × SvcF)) : List SID → Option (List SvcF)
  | [] => some []
  | id :: rest =>
    match dictGet m id.pyStr with
    | none => none
    | some svc => (buildPath m rest).map (fun t => svc :: t)

/-- `TimeTable.fixPath`. -/
def fixPath (suburban : List SvcF) (rc : StubF) : FixResult :=
  if rc.undefinedIds ≠ [] then .invalid
  else
    let m := pyDict suburban
    let sid := rc.serviceIds.headD (SID.num 0)
    match dictGet m sid.pyStr with
    | none => .error
    | some _ =>
      if appearsAsLinkedTo m sid then
        match buildPath m rc.serviceIds with
        | none => .error
        | some p => .path p
      else .noneResult

/-- The chain-matching loop of `generateRakeCycles`: the last chain whose
head's first id stringifies like the stub's first declared id wins. -/
def findChain (chains : List (List SvcF)) (sid : SID) : Option (List SvcF) :=
  chains.reverse.find?
    (fun p => sid.pyStr = ((p.headD ⟨[], none⟩).serviceId.headD (SID.num 0)).pyStr)

/-- What `generateRakeCycles` does with one stub. -/
inductive ResolveOutcome where
  | chainPath (p : List SvcF)
  | removedInvalid
  | errorRaised
  | fixedPath (p : List SvcF)
  | nonePath
deriving DecidableEq

/-- One step of the `generateRakeCycles` loop over `self.rakecycles`. -/
def resolveCycle (chains : List (List SvcF)) (suburban : List SvcF) (rc : StubF) :
    ResolveOutcome :=
  match findChain chains (rc.serviceIds.headD (SID.num 0)) with
  | some p => .chainPath p
  | none =>
    match fixPath suburban rc with
    | .invalid => .removedInvalid
    | .error => .errorRaised
    | .path p => .fixedPath p
    | .noneResult => .nonePath

/-- Claim C2, amended: for a stub whose first declared id matches no
chain, (a) undefined ids mark the cycle INVALID and remove it; (b) a
first declared id that is not the primary-id key of any suburban service
raises the data-integrity error; (c) a resolvable first id that appears
as some service's `linkedTo` target rebuilds the path from the declared
sequence by dictionary lookup (raising at any missing id); and (d) a
resolvable first id that never appears as a `linkedTo` target raises no
error at all: `fixPath` returns `None` and the cycle keeps a null
path. -/
theorem C2_fix_path_amended :
    (∀ (suburban : List SvcF) (rc : StubF),
      rc.undefinedIds ≠ [] → fixPath suburban rc = .invalid) ∧
    (∀ (suburban : List SvcF) (rc : StubF),
      rc.undefinedIds = [] →
      dictGet (pyDict suburban) (rc.serviceIds.headD (SID.num 0)).pyStr = none →
      fixPath suburban rc = .error) ∧
    (∀ (suburban : List SvcF) (rc : StubF) (s : SvcF),
      rc.undefinedIds = [] →
      dictGet (pyDict suburban) (rc.serviceIds.headD (SID.num 0)).pyStr = some s →
      appearsAsLinkedTo (pyDict suburban) (rc.serviceIds.headD (SID.num 0)) = true →
      fixPath suburban rc =
        (match buildPath (pyDict suburban) rc.serviceIds with
         | none => .error
         | some p => .path p)) ∧
    (∀ (suburban : List SvcF) (rc : StubF) (s : SvcF),
      rc.undefinedIds = [] →
      dictGet (pyDict suburban) (rc.serviceIds.headD (SID.num 0)).pyStr = some s →
      appearsAsLinkedTo (pyDict suburban) (rc.serviceIds.headD (SID.num 0)) = false →
      fixPath suburban rc = .noneResult) ∧
    (∀ (m : List (String × SvcF)) (ids : List SID),
      buildPath m ids = ids.mapM (fun id => dictGet m id.pyStr)) ∧
    (∀ (chains : List (List SvcF)) (suburban : List SvcF) (rc : StubF),
      findChain chains (rc.serviceIds.headD (SID.num 0)) = none →
      resolveCycle chains suburban rc =
        (match fixPath suburban rc with
         | .invalid => .removedInvalid
         | .error => .errorRaised
         | .path p => .fixedPath p
         | .noneResult => .nonePath)) := by
  refine ⟨?_, ?_, ?_, ?_, ?_, ?_⟩
  · intro suburban rc h
    simp [fixPath, h]
  · intro suburban rc h1 h2
    unfold fixPath
    rw [if_neg (by simp [h1])]
    simp only [h2]
  · intro suburban rc s h1 h2 h3
    unfold fixPath
    rw [if_neg (by simp [h1])]
    simp only [h2, h3, if_true]
  · intro suburban rc s h1 h2 h3
    unfold fixPath
    rw [if_neg (by simp [h1])]
    simp only [h2, h3, Bool.false_eq_true, if_false]
  · intro m ids
    induction ids with
    | nil => rfl
    | cons id rest ih =>
      rw [buildPath, List.mapM_cons, ih]
      cases dictGet m id.pyStr <;> cases rest.mapM (fun id => dictGet m id.pyStr) <;> rfl
  · intro chains suburban rc h
    rw [resolveCycle, h]

/-- Witness for C2 at a concrete input: a stub with an undefined id
becomes INVALID. -/
theorem C2_fix_path_amended_witness :
    fixPath [] ⟨"B", [SID.num 93001], [("B", SID.num 93002)]⟩ = FixResult.invalid :=
  C2_fix_path_amended.1 [] ⟨"B", [SID.num 93001], [("B", SID.num 93002)]⟩ (by decide)

/-- Counterexample to claim C2 as stated: a stub with no undefined ids
whose first declared id resolves to a suburban service but never appears
as any service's `linkedTo` target; `fixPath` returns `None` instead of
raising the claimed data-integrity error, and the unmatched cycle keeps
a null path. -/
theorem C2_fix_path_counterexample :
    fixPath [⟨[SID.num 93001], none⟩] ⟨"A", [SID.num 93001], []⟩ = FixResult.noneResult ∧
    (∀ sv ∈ [(⟨[SID.num 93001], none⟩ : SvcF)], sv.linkedTo = none) ∧
    resolveCycle [] [⟨[SID.num 93001], none⟩] ⟨"A", [SID.num 93001], []⟩ =
      ResolveOutcome.nonePath := by
  refine ⟨by decide, ?_, by decide⟩
  intro sv hsv
  simp only [List.mem_singleton] at hsv
  subst hsv
  rfl

/-! ## The filter engine (filters.py) and the per-service constraint
checks (models.py 390-472).

`FilterQuery.inTimePeriod` is embedded as a pair (its default is the
pair `(165, 1605)` and a `None` window would crash the station filter's
tuple unpacking); every other optional field keeps its `Option`.  The
`render` flags mutated in place by the source become functional record
updates.  Event times are rationals as in the time-parsing section. -/

/-- Travel direction of a service. -/
inductive DirectionE where
  | up
  | down
deriving DecidableEq

/-- A station event as seen by the filters. -/
structure StationEventE where
  atStation : String
  atTime : Option ℚ
  render : Bool
deriving DecidableEq

/-- A service as seen by the filters. -/
structure ServiceE where
  needsACRake : Bool
  direction : Option DirectionE
  events : List StationEventE
  render : Bool
deriving DecidableEq

/-- A rake-cycle as seen by the filters. -/
structure RakeCycleE where
  servicePath : List ServiceE
  rake : Option RakeE
  render : Bool
deriving DecidableEq

/-- A filter query (filters.py 14-27). -/
structure FilterQueryE where
  startStation : Option String
  endStation : Option String
  passingThrough : List String
  inTimePeriod : ℚ × ℚ
  ac : Option String
  inDirection : Option (List String)
deriving DecidableEq

/-- Python truthiness of an optional string (`None` and `""` are falsy). -/
def truthyStr : Option String → Bool
  | none => false
  | some s => !s.isEmpty

/-- Python truthiness of an event time (`None` and `0` are falsy). -/
def truthyTime : Option ℚ → Bool
  | none => false
  | some v => v ≠ 0

/-- A default event used only to totalize `events[0]` / `events[-1]`
(the source would raise on an empty list there; the theorems below
restrict to services with events, as the pipeline guarantees). -/
def emptyEvent : StationEventE := { atStation := "", atTime := none, render := true }

/-- A default service, for the same purpose on `servicePath[0]`. -/
def emptySvc : ServiceE := { needsACRake := false, direction := none, events := [], render := true }

/-- `Service.checkACConstraint` (models.py 442-450), also used by the
station-mode pass: it only ever clears the flag. -/
def checkACConstraint (mode : Option String) (svc : ServiceE) : ServiceE :=
  if truthyStr mode = false ∨ mode = some "all" then svc
  else if mode = some "ac" ∧ svc.needsACRake = false then { svc with render := false }
  else if mode = some "nonac" ∧ svc.needsACRake = true then { svc with render := false }
  else svc

/-- Declarative form of the AC constraint on a service. -/
def svcACPass (mode : Option String) (needsAC : Bool) : Bool :=
  if truthyStr mode = false ∨ mode = some "all" then true
  else if mode = some "ac" ∧ needsAC = false then false
  else if mode = some "nonac" ∧ needsAC = true then false
  else true

lemma checkACConstraint_render (mode : Option String) (svc : ServiceE) :
    (checkACConstraint mode svc).render = (svc.render && svcACPass mode svc.needsACRake) := by
  unfold checkACConstraint svcACPass
  split_ifs <;> simp

lemma checkACConstraint_fields (mode : Option String) (svc : ServiceE) :
    (checkACConstraint mode svc).events = svc.events ∧
    (checkACConstraint mode svc).needsACRake = svc.needsACRake ∧
    (checkACConstraint mode svc).direction = svc.direction := by
  unfold checkACConstraint
  split_ifs <;> exact ⟨rfl, rfl, rfl⟩

/-- The per-event body of `apply_station_filters` (filters.py 190-200). -/
def stationEventStep (w : ℚ × ℚ) (ev : StationEventE) : StationEventE :=
  match ev.atTime with
  | none => { ev with render := false }
  | some t => { ev with render := decide (w.1 ≤ t ∧ t ≤ w.2) }

/-- The per-service body of `apply_station_filters`. -/
def stationServiceStep (qq : FilterQueryE) (svc : ServiceE) : ServiceE :=
  if svc.events.isEmpty then { svc with render := false }
  else
    checkACConstraint qq.ac
      { svc with render := true, events := svc.events.map (stationEventStep qq.inTimePeriod) }

/-- `FilterEngine.apply_station_filters` (filters.py 177-202): all cycles
are made visible, each suburban service is processed. -/
def applyStationFilters (qq : FilterQueryE) (cycles : List RakeCycleE)
    (services : List ServiceE) : List RakeCycleE × List ServiceE :=
  (cycles.map (fun rc => { rc with render := true }),
   services.map (stationServiceStep qq))

/-- Claim C6: after a STATION-mode pass every rake-cycle is visible;
every station event of a processed service is visible iff its time is
non-null and lies in the closed window; and a service's visibility is
its AC-constraint verdict on services that have events (so it depends on
the query only through the AC field). -/
theorem C6_station_mode :
    ∀ (qq : FilterQueryE) (cycles : List RakeCycleE) (services : List ServiceE),
      (∀ rc ∈ (applyStationFilters qq cycles services).1, rc.render = true) ∧
      (∀ svc ∈ (applyStationFilters qq cycles services).2, ∀ ev ∈ svc.events,
        (ev.render = true ↔ ∃ t, ev.atTime = some t ∧
          qq.inTimePeriod.1 ≤ t ∧ t ≤ qq.inTimePeriod.2)) ∧
      (∀ svc ∈ (applyStationFilters qq cycles services).2,
        (svc.render = true ↔ svc.events ≠ [] ∧ svcACPass qq.ac svc.needsACRake = true)) ∧
      (∀ qq2 : FilterQueryE, qq2.ac = qq.ac →
        ((applyStationFilters qq2 cycles services).2.map (fun s => s.render)) =
          ((applyStationFilters qq cycles services).2.map (fun s => s.render))) := by
  intro qq cycles services
  have hrender : ∀ (q : FilterQueryE) (svc : ServiceE),
      (stationServiceStep q svc).render =
        (!svc.events.isEmpty && svcACPass q.ac svc.needsACRake) := by
    intro q svc
    unfold stationServiceStep
    by_cases he : svc.events.isEmpty
    · simp [he]
    · simp only [he, Bool.false_eq_true, if_false]
      rw [checkACConstraint_render]
      simp [he]
  have hevents : ∀ (q : FilterQueryE) (svc : ServiceE),
      (stationServiceStep q svc).events =
        (if svc.events.isEmpty then svc.events
         else svc.events.map (stationEventStep q.inTimePeriod)) := by
    intro q svc
    unfold stationServiceStep
    by_cases he : svc.events.isEmpty
    · simp [he]
    · simp only [he, if_false]
      exact ((checkACConstraint_fields _ _).1)
  have hac : ∀ (q : FilterQueryE) (svc : ServiceE),
      (stationServiceStep q svc).needsACRake = svc.needsACRake := by
    intro q svc
    unfold stationServiceStep
    by_cases he : svc.events.isEmpty
    · simp [he]
    · simp only [he, if_false]
      exact ((checkACConstraint_fields _ _).2.1)
  refine ⟨?_, ?_, ?_, ?_⟩
  · intro rc hrc
    rw [applyStationFilters] at hrc
    simp only [List.mem_map] at hrc
    obtain ⟨rc0, _, rfl⟩ := hrc
    rfl
  · intro svc hsvc ev hev
    rw [applyStationFilters] at hsvc
    simp only [List.mem_map] at hsvc
    obtain ⟨svc0, _, rfl⟩ := hsvc
    rw [hevents] at hev
    by_cases he : svc0.events.isEmpty
    · rw [if_pos he] at hev
      rw [List.isEmpty_iff] at he
      rw [he] at hev
      cases hev
    · rw [if_neg he] at hev
      simp only [List.mem_map] at hev
      obtain ⟨ev0, _, rfl⟩ := hev
      unfold stationEventStep
      cases ht : ev0.atTime with
      | none => simp
      | some t =>
        simp only [ht]
        constructor
        · intro hr
          refine ⟨t, rfl, ?_⟩
          simpa using hr
        · rintro ⟨t2, ht2, hw⟩
          injection ht2 with ht2
          subst ht2
          simpa using hw
  · intro svc hsvc
    rw [applyStationFilters] at hsvc
    simp only [List.mem_map] at hsvc
    obtain ⟨svc0, _, rfl⟩ := hsvc
    rw [hrender, hevents, hac]
    by_cases he : svc0.events.isEmpty
    · have he2 : svc0.events = [] := by simpa using he
      simp [he2]
    · have hne : svc0.events ≠ [] := fun hh => he (by simp [hh])
      simp [he, hne]
  · intro qq2 hacq
    rw [applyStationFilters, applyStationFilters]
    simp only [List.map_map]
    apply List.map_congr_left
    intro svc _
    simp only [Function.comp_apply, hrender, hacq]

/-- Witness for C6 at a concrete input. -/
theorem C6_station_mode_witness :
    ({ servicePath := [], rake := none, render := true } : RakeCycleE).render = true :=
  (C6_station_mode
    { startStation := none, endStation := none, passingThrough := [],
      inTimePeriod := (600, 660), ac := none, inDirection := none }
    [{ servicePath := [], rake := none, render := false }] []).1
    { servicePath := [], rake := none, render := true }
    (by simp [applyStationFilters])

/-! ## SERVICE-mode checks (models.py 390-472, filters.py 141-164).

The start/end/passing checks compare event times with the window bounds;
a `None` time reaching such a comparison raises a `TypeError` in the
source, embedded here as an `Option`-valued step returning `none`. -/

/-- Python truthiness of an optional list (`None` and `[]` are falsy). -/
def truthyList (o : Option (List String)) : Bool :=
  match o with
  | none => false
  | some l => !l.isEmpty

/-- `Service.checkDirectionConstraint` (models.py 425-440). -/
def checkDirectionConstraint (qq : FilterQueryE) (svc : ServiceE) : ServiceE :=
  if truthyList qq.inDirection = false then svc
  else if (qq.inDirection.getD []).any (fun d =>
      (d = "UP" && svc.direction = some DirectionE.up) ||
      (d = "DOWN" && svc.direction = some DirectionE.down)) then svc
  else { svc with render := false }

/-- `Service.checkStartStationConstraint` (models.py 390-408); `none`
is the `TypeError` of comparing a null first-event time against the
window bound. -/
def checkStartStationConstraint (qq : FilterQueryE) (svc : ServiceE) : Option ServiceE :=
  if truthyStr qq.startStation = false then some svc
  else if (svc.events.headD emptyEvent).atStation = qq.startStation.getD "" then
    if (svc.events.headD emptyEvent).atTime = none then none
    else if qq.inTimePeriod.1 ≤ ((svc.events.headD emptyEvent).atTime.getD 0) ∧
        ((svc.events.headD emptyEvent).atTime.getD 0) ≤ qq.inTimePeriod.2 then some svc
    else some { svc with render := false }
  else some { svc with render := false }

/-- `Service.checkEndStationConstraint` (models.py 410-423). -/
def checkEndStationConstraint (qq : FilterQueryE) (svc : ServiceE) : Option ServiceE :=
  if truthyStr qq.endStation = false then some svc
  else if (svc.events.getLastD emptyEvent).atStation = qq.endStation.getD "" then
    if (svc.events.getLastD emptyEvent).atTime = none then none
    else if qq.inTimePeriod.1 ≤ ((svc.events.getLastD emptyEvent).atTime.getD 0) ∧
        ((svc.events.getLastD emptyEvent).atTime.getD 0) ≤ qq.inTimePeriod.2 then some svc
    else some { svc with render := false }
  else some { svc with render := false }

/-- `stnMapTimes[st]`: the times of the service's events at station
`st`, in event order (the dict groups by exact station string). -/
def eventsTimesAt (svc : ServiceE) (st : String) : List (Option ℚ) :=
  (svc.events.filter (fun e => e.atStation = st)).map (fun e => e.atTime)

/-- The `for st in qPassingStns` loop of
`Service.checkPassingThroughConstraint` (models.py 452-472): the verdict
for each queried station looks only at the LAST recorded time for that
station; `some false` means the render flag is cleared, `none` is the
`TypeError` of comparing a null time. -/
def checkPassingThroughLoop (qq : FilterQueryE) (svc : ServiceE) : List String → Option Bool
  | [] => some true
  | st :: rest =>
    if (eventsTimesAt svc st).isEmpty then some false
    else if (eventsTimesAt svc st).getLastD none = none then none
    else if qq.inTimePeriod.1 ≤ ((eventsTimesAt svc st).getLastD none).getD 0 ∧
        ((eventsTimesAt svc st).getLastD none).getD 0 ≤ qq.inTimePeriod.2 then
      checkPassingThroughLoop qq svc rest
    else some false

/-- `Service.checkPassingThroughConstraint`. -/
def checkPassingThroughConstraint (qq : FilterQueryE) (svc : ServiceE) : Option Bool :=
  let qs := qq.passingThrough.map pyUpper
  if qs.isEmpty then some true
  else checkPassingThroughLoop qq svc qs

/-- The per-service body of `FilterEngine.apply_service_filters`
(filters.py 147-164): reset, then the five constraint checks in
order. -/
def serviceFilterOne (qq : FilterQueryE) (svc : ServiceE) : Option ServiceE :=
  if svc.events.isEmpty then some { svc with render := false }
  else
    match checkStartStationConstraint qq (checkACConstraint qq.ac
        (checkDirectionConstraint qq
          { svc with
            render := true
            events := svc.events.map (fun e => { e with render := true }) })) with
    | none => none
    | some svc4 =>
      match checkEndStationConstraint qq svc4 with
      | none => none
      | some svc5 =>
        match checkPassingThroughConstraint qq svc5 with
        | none => none
        | some pass => some (if pass then svc5 else { svc5 with render := false })

lemma checkDirectionConstraint_events (qq : FilterQueryE) (svc : ServiceE) :
    (checkDirectionConstraint qq svc).events = svc.events := by
  unfold checkDirectionConstraint
  split_ifs <;> rfl

lemma checkStartStationConstraint_events (qq : FilterQueryE) (svc s2 : ServiceE)
    (h : checkStartStationConstraint qq svc = some s2) : s2.events = svc.events := by
  unfold checkStartStationConstraint at h
  split_ifs at h <;> injection h with h <;> (subst h; rfl)

lemma checkEndStationConstraint_events (qq : FilterQueryE) (svc s2 : ServiceE)
    (h : checkEndStationConstraint qq svc = some s2) : s2.events = svc.events := by
  unfold checkEndStationConstraint at h
  split_ifs at h <;> injection h with h <;> (subst h; rfl)

lemma eventsTimesAt_congr (qq : FilterQueryE) (svc svc2 : ServiceE)
    (h : ∀ st, eventsTimesAt svc st = eventsTimesAt svc2 st) :
    ∀ qs, checkPassingThroughLoop qq svc qs = checkPassingThroughLoop qq svc2 qs := by
  intro qs
  induction qs with
  | nil => rfl
  | cons st rest ih =>
    rw [checkPassingThroughLoop, checkPassingThroughLoop, h st, ih]

lemma checkPassingThroughConstraint_congr (qq : FilterQueryE) (svc svc2 : ServiceE)
    (h : ∀ st, eventsTimesAt svc st = eventsTimesAt svc2 st) :
    checkPassingThroughConstraint qq svc = checkPassingThroughConstraint qq svc2 := by
  unfold checkPassingThroughConstraint
  by_cases he : (qq.passingThrough.map pyUpper).isEmpty
  · rw [if_pos he, if_pos he]
  · rw [if_neg he, if_neg he, eventsTimesAt_congr qq svc svc2 h]

lemma eventsTimesAt_reset (svc : ServiceE) (r : Bool) (st : String) :
    eventsTimesAt
      { svc with
        render := r
        events := svc.events.map (fun e => { e with render := true }) } st =
    eventsTimesAt svc st := by
  unfold eventsTimesAt
  simp only [List.filter_map, List.map_map]
  rfl

lemma eventsTimesAt_eq_of_events_eq (svc svc2 : ServiceE)
    (h : svc.events = svc2.events) (st : String) :
    eventsTimesAt svc st = eventsTimesAt svc2 st := by
  unfold eventsTimesAt
  rw [h]

lemma mem_eventsTimesAt (svc : ServiceE) (st : String) (x : Option ℚ)
    (h : x ∈ eventsTimesAt svc st) :
    ∃ e ∈ svc.events, e.atStation = st ∧ e.atTime = x := by
  unfold eventsTimesAt at h
  simp only [List.mem_map, List.mem_filter, decide_eq_true_eq] at h
  obtain ⟨e, ⟨he1, he2⟩, he3⟩ := h
  exact ⟨e, he1, he2, he3⟩

lemma checkPassingThroughLoop_spec (qq : FilterQueryE) (svc : ServiceE)
    (htimes : ∀ e ∈ svc.events, e.atTime ≠ none) (qs : List String) :
    ∃ b, checkPassingThroughLoop qq svc qs = some b ∧
      (b = true ↔ ∀ st ∈ qs, ∃ t : ℚ,
        (eventsTimesAt svc st).getLast? = some (some t) ∧
        qq.inTimePeriod.1 ≤ t ∧ t ≤ qq.inTimePeriod.2) := by
  induction qs with
  | nil =>
    refine ⟨true, rfl, ?_⟩
    simp
  | cons st rest ih =>
    rw [checkPassingThroughLoop]
    by_cases he : (eventsTimesAt svc st).isEmpty
    · rw [if_pos he]
      refine ⟨false, rfl, iff_of_false (by simp) ?_⟩
      intro hall
      obtain ⟨t, hlast, _⟩ := hall st (List.mem_cons_self st rest)
      have hnil : eventsTimesAt svc st = [] := by simpa using he
      rw [hnil] at hlast
      cases hlast
    · rw [if_neg he]
      have hney : eventsTimesAt svc st ≠ [] := fun hh => he (by simp [hh])
      have hx : (eventsTimesAt svc st).getLast? =
          some ((eventsTimesAt svc st).getLast hney) :=
        List.getLast?_eq_getLast_of_ne_nil hney
      have hxmem : (eventsTimesAt svc st).getLast hney ∈ eventsTimesAt svc st :=
        List.getLast_mem hney
      have hxne : (eventsTimesAt svc st).getLast hney ≠ none := by
        obtain ⟨e, hemem, _, heq⟩ := mem_eventsTimesAt svc st _ hxmem
        rw [← heq]
        exact htimes e hemem
      obtain ⟨t, ht⟩ := Option.ne_none_iff_exists'.mp hxne
      have hlastD : (eventsTimesAt svc st).getLastD none = some t := by
        rw [List.getLastD_eq_getLast?, hx, ht]
        rfl
      rw [hlastD]
      rw [if_neg (by simp : ¬(some t = (none : Option ℚ)))]
      simp only [Option.getD_some]
      by_cases hw : qq.inTimePeriod.1 ≤ t ∧ t ≤ qq.inTimePeriod.2
      · rw [if_pos hw]
        obtain ⟨b, hb, hiff⟩ := ih
        refine ⟨b, hb, ?_⟩
        rw [hiff]
        constructor
        · intro hall st2 hst2
          rcases List.mem_cons.mp hst2 with rfl | hst2
          · refine ⟨t, ?_, hw⟩
            rw [hx, ht]
          · exact hall st2 hst2
        · intro hall st2 hst2
          exact hall st2 (List.mem_cons_of_mem st hst2)
      · rw [if_neg hw]
        refine ⟨false, rfl, iff_of_false (by simp) ?_⟩
        intro hall
        obtain ⟨t2, hlast2, hw2⟩ := hall st (List.mem_cons_self st rest)
        rw [hx, ht] at hlast2
        injection hlast2 with hlast2
        injection hlast2 with hlast2
        subst hlast2
        exact hw hw2

/-- Claim C7, amended: in a SERVICE-mode pass, for every queried station
the passing-through constraint inspects only the time of the service's
LAST event at that station (matched case-insensitively and exactly on
the station string): the constraint holds iff for every station in the
list the service has at least one event there and the last such event's
time lies inside the closed window; when the constraint fails (in
particular when the queried station has no event at all) the service
ends the pass invisible. -/
theorem C7_passing_through_amended :
    (∀ (qq : FilterQueryE) (svc : ServiceE),
      (∀ e ∈ svc.events, e.atTime ≠ none) →
      ∃ b, checkPassingThroughConstraint qq svc = some b ∧
        (b = true ↔ ∀ st ∈ qq.passingThrough, ∃ t : ℚ,
          (eventsTimesAt svc (pyUpper st)).getLast? = some (some t) ∧
          qq.inTimePeriod.1 ≤ t ∧ t ≤ qq.inTimePeriod.2)) ∧
    (∀ (qq : FilterQueryE) (svc svc2 : ServiceE),
      serviceFilterOne qq svc = some svc2 →
      checkPassingThroughConstraint qq svc = some false →
      svc2.render = false) := by
  constructor
  · intro qq svc htimes
    unfold checkPassingThroughConstraint
    by_cases he : (qq.passingThrough.map pyUpper).isEmpty
    · rw [if_pos he]
      refine ⟨true, rfl, ?_⟩
      have : qq.passingThrough = [] := by simpa using he
      simp [this]
    · rw [if_neg he]
      obtain ⟨b, hb, hiff⟩ := checkPassingThroughLoop_spec qq svc htimes
        (qq.passingThrough.map pyUpper)
      refine ⟨b, hb, ?_⟩
      rw [hiff]
      constructor
      · intro hall st hst
        exact hall (pyUpper st) (List.mem_map_of_mem pyUpper hst)
      · intro hall st hst
        obtain ⟨st0, hst0, rfl⟩ := List.mem_map.mp hst
        exact hall st0 hst0
  · intro qq svc svc2 hrun hpt
    unfold serviceFilterOne at hrun
    by_cases he : svc.events.isEmpty
    · rw [if_pos he] at hrun
      injection hrun with hrun
      subst hrun
      rfl
    · rw [if_neg he] at hrun
      split at hrun
      · cases hrun
      · rename_i svc4 h4
        split at hrun
        · cases hrun
        · rename_i svc5 h5
          split at hrun
          · cases hrun
          · rename_i pass hp
            have hev5 : svc5.events = svc.events.map (fun e => { e with render := true }) := by
              rw [checkEndStationConstraint_events qq svc4 svc5 h5,
                checkStartStationConstraint_events qq _ svc4 h4,
                (checkACConstraint_fields qq.ac _).1,
                checkDirectionConstraint_events qq _]
            have hsame : checkPassingThroughConstraint qq svc5 =
                checkPassingThroughConstraint qq svc := by
              apply checkPassingThroughConstraint_congr
              intro st
              have e1 : eventsTimesAt svc5 st =
                  eventsTimesAt { svc with
                    render := true
                    events := svc.events.map (fun e => { e with render := true }) } st := by
                apply eventsTimesAt_eq_of_events_eq
                rw [hev5]
              rw [e1, eventsTimesAt_reset]
            rw [hsame, hpt] at hp
            injection hp with hp
            subst hp
            simp only [Bool.false_eq_true, if_false] at hrun
            injection hrun with hrun
            subst hrun
            rfl

/-- The query of the C7 counterexample: passing through DADAR inside
the window (400, 600). -/
def c7query : FilterQueryE :=
  { startStation := none, endStation := none, passingThrough := ["DADAR"],
    inTimePeriod := (400, 600), ac := none, inDirection := none }

/-- The service of the C7 counterexample: one DADAR event inside the
window (minute 500) and a later DADAR event outside it (minute 1700). -/
def c7service : ServiceE :=
  { needsACRake := false, direction := some DirectionE.up,
    events := [{ atStation := "DADAR", atTime := some 500, render := true },
               { atStation := "DADAR", atTime := some 1700, render := true }],
    render := true }

/-- The C7 service after the reset step of the SERVICE-mode pass. -/
def c7serviceReset : ServiceE :=
  { c7service with
    render := true
    events := c7service.events.map (fun e => { e with render := true }) }

lemma c7_pt_eval_reset : checkPassingThroughConstraint c7query c7serviceReset = some false := by
  show checkPassingThroughLoop c7query c7serviceReset ["DADAR"] = some false
  rw [checkPassingThroughLoop]
  rw [if_neg (by decide : ¬((eventsTimesAt c7serviceReset "DADAR").isEmpty = true))]
  rw [if_neg (by decide : ¬((eventsTimesAt c7serviceReset "DADAR").getLastD none = none))]
  rw [show ((eventsTimesAt c7serviceReset "DADAR").getLastD none).getD 0 = 1700 from rfl]
  rw [if_neg (by norm_num [c7query] :
    ¬((c7query.inTimePeriod.1 ≤ (1700 : ℚ)) ∧ ((1700 : ℚ) ≤ c7query.inTimePeriod.2)))]

lemma c7_pt_eval : checkPassingThroughConstraint c7query c7service = some false := by
  rw [checkPassingThroughConstraint_congr c7query c7service c7serviceReset
    (fun st => (eventsTimesAt_reset c7service true st).symm)]
  exact c7_pt_eval_reset

lemma c7_run_eval :
    serviceFilterOne c7query c7service = some { c7serviceReset with render := false } := by
  rw [show serviceFilterOne c7query c7service =
      (match checkPassingThroughConstraint c7query c7serviceReset with
       | none => none
       | some pass =>
         some (if pass then c7serviceReset else { c7serviceReset with render := false }))
    from rfl]
  rw [c7_pt_eval_reset]
  rfl

/-- Counterexample to claim C7 as stated: the service has an event at
the queried station DADAR with time 500 inside the closed window
(400, 600), yet the passing-through constraint fails (only the LAST
DADAR event, at 1700, is consulted) and the pass leaves the service
invisible. -/
theorem C7_passing_through_counterexample :
    checkPassingThroughConstraint c7query c7service = some false ∧
    (serviceFilterOne c7query c7service).map (fun s => s.render) = some false ∧
    c7service.events.headD emptyEvent ∈ c7service.events ∧
    (c7service.events.headD emptyEvent).atStation = pyUpper "DADAR" ∧
    (c7service.events.headD emptyEvent).atTime = some 500 ∧
    c7query.passingThrough = ["DADAR"] ∧
    c7query.inTimePeriod.1 ≤ (500 : ℚ) ∧ (500 : ℚ) ≤ c7query.inTimePeriod.2 := by
  refine ⟨c7_pt_eval, ?_, ?_, rfl, rfl, rfl, ?_, ?_⟩
  · rw [c7_run_eval]
    rfl
  · show ({ atStation := "DADAR", atTime := some 500, render := true } : StationEventE) ∈
      c7service.events
    exact List.mem_cons_self _ _
  · norm_num [c7query]
  · norm_num [c7query]

/-- Witness for the amended C7 theorem at the counterexample input. -/
theorem C7_passing_through_amended_witness :
    ({ c7serviceReset with render := false } : ServiceE).render = false :=
  C7_passing_through_amended.2 c7query c7service
    { c7serviceReset with render := false } c7_run_eval c7_pt_eval

/-! ## RAKELINK-mode filters: `FilterEngine.apply_link_filters`
(filters.py 51-139): the terminal-station pass, the passing-through
pass and the AC pass run in sequence over `wtt.rakecycles`; each acts on
one cycle at a time using only that cycle's state, so the three loops
compose into one per-cycle function. -/

/-- `str(e.atStation).strip().upper()` (filters.py 116). -/
def normStation (e : StationEventE) : String :=
  pyUpper (String.mk (pyStrip e.atStation.data))

/-- `rc.servicePath[0].events[0].atStation` (with the totalizing
defaults; the pipeline guarantees nonempty paths and event lists). -/
def firstStationOf (rc : RakeCycleE) : String :=
  ((rc.servicePath.headD emptySvc).events.headD emptyEvent).atStation

/-- `rc.servicePath[-1].events[-1].atStation`. -/
def lastStationOf (rc : RakeCycleE) : String :=
  ((rc.servicePath.getLastD emptySvc).events.getLastD emptyEvent).atStation

/-- The flattening `el` of all events of a cycle (filters.py 94-96). -/
def allEventsOf (rc : RakeCycleE) : List StationEventE :=
  rc.servicePath.flatMap (fun s => s.events)

/-- The time filter of the passing-through pass (filters.py 99-109):
keep events with truthy time inside the closed window. -/
def windowKeep (w : ℚ × ℚ) (e : StationEventE) : Bool :=
  truthyTime e.atTime && decide (w.1 ≤ e.atTime.getD 0 ∧ e.atTime.getD 0 ≤ w.2)

/-- The `seen` set accumulation (filters.py 112-120), with the set kept
as a duplicate-free list. -/
def seenGo (selected : List String) : List StationEventE → List String → List String
  | [], seen => seen
  | e :: rest, seen =>
    if e.atStation.isEmpty then seenGo selected rest seen
    else if normStation e ∈ selected ∧ normStation e ∉ seen then
      seenGo selected rest (seen ++ [normStation e])
    else seenGo selected rest seen

/-- The stations of `selected` seen among the window-filtered events. -/
def seenFold (selected : List String) (el : List StationEventE) : List String :=
  seenGo selected el []

/-- The per-cycle body of `_apply_terminal_station_filters`
(filters.py 60-75). -/
def termStep (startQ endQ : Option String) (rc : RakeCycleE) : RakeCycleE :=
  if rc.servicePath.isEmpty then { rc with render := false }
  else
    { rc with render :=
        (if truthyStr startQ = true ∧ pyUpper (startQ.getD "") ≠ firstStationOf rc
         then false else true) &&
        (if truthyStr endQ = true ∧ pyUpper (endQ.getD "") ≠ lastStationOf rc
         then false else true) }

/-- The per-cycle body of `_apply_passing_through_filter`
(filters.py 77-123). -/
def passStep (qq : FilterQueryE) (rc : RakeCycleE) : RakeCycleE :=
  if qq.passingThrough.isEmpty then rc
  else if rc.servicePath.isEmpty then { rc with render := false }
  else if (seenFold (qq.passingThrough.map pyUpper)
        ((allEventsOf rc).filter (windowKeep qq.inTimePeriod))).length <
      (qq.passingThrough.map pyUpper).length then { rc with render := false }
  else rc

/-- The per-cycle body of `_apply_ac_filter` (filters.py 125-139). -/
def acStep (mode : Option String) (rc : RakeCycleE) : RakeCycleE :=
  if mode = none ∨ mode = some "all" then rc
  else if rc.rake = none then { rc with render := false }
  else if mode = some "ac" ∧ (rc.rake.getD (mkRake 0)).isAC = false then
    { rc with render := false }
  else if mode = some "nonac" ∧ (rc.rake.getD (mkRake 0)).isAC = true then
    { rc with render := false }
  else rc

/-- One RAKELINK-mode pass over a single cycle. -/
def linkFilterCycle (qq : FilterQueryE) (rc : RakeCycleE) : RakeCycleE :=
  acStep qq.ac (passStep qq (termStep qq.startStation qq.endStation rc))

/-- `FilterEngine.apply_link_filters`. -/
def applyLinkFilters (qq : FilterQueryE) (cycles : List RakeCycleE) : List RakeCycleE :=
  cycles.map (linkFilterCycle qq)

/-- The start/end-station constraint as the claim states it: when a
truthy constraint is set, the uppercased constraint must equal the
terminal station. -/
def startEndOk (q : Option String) (stn : String) : Prop :=
  ∀ s, q = some s → s ≠ "" → pyUpper s = stn

/-- The AC constraint on a cycle as the claim states it: no constraint
(or "all") always passes; any other constraint needs an assigned rake
whose AC flag matches. -/
def acVisible (mode : Option String) (rake : Option RakeE) : Prop :=
  mode = none ∨ mode = some "all" ∨
  (∃ rk, rake = some rk ∧ (mode = some "ac" → rk.isAC = true) ∧
    (mode = some "nonac" → rk.isAC = false))

/-- The passing-through condition at one queried station: some event of
the cycle lies at that station (after normalization) with a truthy time
inside the closed window. -/
def passOkAt (qq : FilterQueryE) (rc : RakeCycleE) (st : String) : Prop :=
  ∃ e ∈ allEventsOf rc, ¬e.atStation.isEmpty ∧ normStation e = pyUpper st ∧
    ∃ t : ℚ, e.atTime = some t ∧ t ≠ 0 ∧
      qq.inTimePeriod.1 ≤ t ∧ t ≤ qq.inTimePeriod.2

lemma seenGo_mem (selected : List String) :
    ∀ (el : List StationEventE) (seen : List String) (x : String),
      x ∈ seenGo selected el seen ↔
        x ∈ seen ∨ (x ∈ selected ∧ ∃ e ∈ el, ¬e.atStation.isEmpty ∧ normStation e = x) := by
  intro el
  induction el with
  | nil =>
    intro seen x
    simp [seenGo]
  | cons e rest ih =>
    intro seen x
    rw [seenGo]
    by_cases h1 : e.atStation.isEmpty
    · rw [if_pos h1, ih]
      constructor
      · rintro (hx | ⟨hsel, e2, he2, hne, hn⟩)
        · exact Or.inl hx
        · exact Or.inr ⟨hsel, e2, List.mem_cons_of_mem e he2, hne, hn⟩
      · rintro (hx | ⟨hsel, e2, he2, hne, hn⟩)
        · exact Or.inl hx
        · rcases List.mem_cons.mp he2 with rfl | he2
          · exact absurd h1 hne
          · exact Or.inr ⟨hsel, e2, he2, hne, hn⟩
    · rw [if_neg h1]
      by_cases h2 : normStation e ∈ selected ∧ normStation e ∉ seen
      · rw [if_pos h2, ih]
        simp only [List.mem_append, List.mem_singleton]
        constructor
        · rintro ((hx | hx) | ⟨hsel, e2, he2, hne, hn⟩)
          · exact Or.inl hx
          · subst hx
            exact Or.inr ⟨h2.1, e, List.mem_cons_self e rest, h1, rfl⟩
          · exact Or.inr ⟨hsel, e2, List.mem_cons_of_mem e he2, hne, hn⟩
        · rintro (hx | ⟨hsel, e2, he2, hne, hn⟩)
          · exact Or.inl (Or.inl hx)
          · rcases List.mem_cons.mp he2 with rfl | he2
            · exact Or.inl (Or.inr hn.symm)
            · exact Or.inr ⟨hsel, e2, he2, hne, hn⟩
      · rw [if_neg h2, ih]
        constructor
        · rintro (hx | ⟨hsel, e2, he2, hne, hn⟩)
          · exact Or.inl hx
          · exact Or.inr ⟨hsel, e2, List.mem_cons_of_mem e he2, hne, hn⟩
        · rintro (hx | ⟨hsel, e2, he2, hne, hn⟩)
          · exact Or.inl hx
          · rcases List.mem_cons.mp he2 with rfl | he2
            · subst hn
              rcases not_and_or.mp h2 with hA | hB
              · exact absurd hsel hA
              · exact Or.inl (not_not.mp hB)
            · exact Or.inr ⟨hsel, e2, he2, hne, hn⟩

lemma seenGo_nodup (selected : List String) :
    ∀ (el : List StationEventE) (seen : List String),
      seen.Nodup → (seenGo selected el seen).Nodup := by
  intro el
  induction el with
  | nil => intro seen h; exact h
  | cons e rest ih =>
    intro seen h
    rw [seenGo]
    by_cases h1 : e.atStation.isEmpty
    · rw [if_pos h1]
      exact ih seen h
    · rw [if_neg h1]
      by_cases h2 : normStation e ∈ selected ∧ normStation e ∉ seen
      · rw [if_pos h2]
        apply ih
        refine List.Nodup.append h (List.nodup_singleton _) ?_
        intro a ha hb
        rw [List.mem_singleton] at hb
        subst hb
        exact h2.2 ha
      · rw [if_neg h2]
        exact ih seen h

lemma seen_length_iff (selected : List String) (hnd : selected.Nodup)
    (el : List StationEventE) :
    ((seenFold selected el).length < selected.length) ↔
      ¬(∀ st ∈ selected, ∃ e ∈ el, ¬e.atStation.isEmpty ∧ normStation e = st) := by
  have hmem : ∀ x, x ∈ seenFold selected el ↔
      x ∈ selected ∧ ∃ e ∈ el, ¬e.atStation.isEmpty ∧ normStation e = x := by
    intro x
    rw [seenFold, seenGo_mem]
    simp
  have hnodupS : (seenFold selected el).Nodup :=
    seenGo_nodup selected el [] List.nodup_nil
  have hsub : (seenFold selected el).toFinset ⊆ selected.toFinset := by
    intro x hx
    rw [List.mem_toFinset] at hx ⊢
    exact ((hmem x).mp hx).1
  have hlen1 : (seenFold selected el).toFinset.card = (seenFold selected el).length :=
    List.toFinset_card_of_nodup hnodupS
  have hlen2 : selected.toFinset.card = selected.length :=
    List.toFinset_card_of_nodup hnd
  constructor
  · intro hlt hall
    have hsub2 : selected.toFinset ⊆ (seenFold selected el).toFinset := by
      intro x hx
      rw [List.mem_toFinset] at hx ⊢
      exact (hmem x).mpr ⟨hx, hall x hx⟩
    have := Finset.card_le_card hsub2
    omega
  · intro hnall
    have hle := Finset.card_le_card hsub
    rcases lt_or_eq_of_le hle with hlt | heq
    · omega
    · exfalso
      have heqset : (seenFold selected el).toFinset = selected.toFinset :=
        Finset.eq_of_subset_of_card_le hsub (le_of_eq heq.symm)
      apply hnall
      intro st hst
      have h3 : st ∈ (seenFold selected el).toFinset := by
        rw [heqset]
        exact List.mem_toFinset.mpr hst
      exact ((hmem st).mp (List.mem_toFinset.mp h3)).2

lemma windowKeep_iff (w : ℚ × ℚ) (e : StationEventE) :
    windowKeep w e = true ↔
      ∃ t : ℚ, e.atTime = some t ∧ t ≠ 0 ∧ w.1 ≤ t ∧ t ≤ w.2 := by
  cases ht : e.atTime with
  | none => simp [windowKeep, truthyTime, ht]
  | some t => simp [windowKeep, truthyTime, ht, and_assoc]

lemma startEnd_cond_iff (q : Option String) (stn : String) :
    ((if truthyStr q = true ∧ pyUpper (q.getD "") ≠ stn then false else true) = true) ↔
      startEndOk q stn := by
  split_ifs with hc
  · refine iff_of_false (by simp) ?_
    intro hok
    cases q with
    | none => exact absurd hc.1 (by simp [truthyStr])
    | some s0 =>
      have hs0 : ¬(s0.isEmpty = true) := by
        have h6 := hc.1
        simp only [truthyStr, Bool.not_eq_true'] at h6
        simp [h6]
      have hne : s0 ≠ "" := fun hh => hs0 (by rw [hh]; rfl)
      exact hc.2 (hok s0 rfl hne)
  · refine iff_of_true rfl ?_
    intro s0 hq hne
    subst hq
    by_contra hx
    apply hc
    refine ⟨?_, hx⟩
    have h5 : s0.isEmpty = false := by
      rw [Bool.eq_false_iff]
      exact fun h => hne ((String.isEmpty_iff s0).mp h)
    simp [truthyStr, h5]

lemma termStep_fields (s e : Option String) (rc : RakeCycleE) :
    (termStep s e rc).servicePath = rc.servicePath ∧ (termStep s e rc).rake = rc.rake := by
  unfold termStep
  split_ifs <;> exact ⟨rfl, rfl⟩

lemma termStep_render (s e : Option String) (rc : RakeCycleE) :
    (termStep s e rc).render = true ↔
      (rc.servicePath ≠ [] ∧ startEndOk s (firstStationOf rc) ∧
        startEndOk e (lastStationOf rc)) := by
  unfold termStep
  by_cases hp : rc.servicePath.isEmpty
  · rw [if_pos hp]
    have hnil : rc.servicePath = [] := by simpa using hp
    simp [hnil]
  · rw [if_neg hp]
    have hne : rc.servicePath ≠ [] := fun hh => hp (by simp [hh])
    simp only [Bool.and_eq_true]
    rw [startEnd_cond_iff, startEnd_cond_iff]
    constructor
    · rintro ⟨h1, h2⟩
      exact ⟨hne, h1, h2⟩
    · rintro ⟨_, h1, h2⟩
      exact ⟨h1, h2⟩

lemma passStep_fields (qq : FilterQueryE) (rc : RakeCycleE) :
    (passStep qq rc).servicePath = rc.servicePath ∧ (passStep qq rc).rake = rc.rake := by
  unfold passStep
  split_ifs <;> exact ⟨rfl, rfl⟩

lemma passStep_render (qq : FilterQueryE) (rc : RakeCycleE)
    (hnd : (qq.passingThrough.map pyUpper).Nodup) :
    (passStep qq rc).render = true ↔
      (rc.render = true ∧ (qq.passingThrough ≠ [] → rc.servicePath ≠ []) ∧
        ∀ st ∈ qq.passingThrough, passOkAt qq rc st) := by
  unfold passStep
  by_cases h0 : qq.passingThrough.isEmpty
  · rw [if_pos h0]
    have hnil : qq.passingThrough = [] := by simpa using h0
    simp [hnil]
  · rw [if_neg h0]
    have hne0 : qq.passingThrough ≠ [] := fun hh => h0 (by simp [hh])
    by_cases hp : rc.servicePath.isEmpty
    · rw [if_pos hp]
      have hnil : rc.servicePath = [] := by simpa using hp
      refine iff_of_false (by simp) ?_
      rintro ⟨_, himp, _⟩
      exact (himp hne0) hnil
    · rw [if_neg hp]
      have hnep : rc.servicePath ≠ [] := fun hh => hp (by simp [hh])
      by_cases hseen : (seenFold (qq.passingThrough.map pyUpper)
          ((allEventsOf rc).filter (windowKeep qq.inTimePeriod))).length <
          (qq.passingThrough.map pyUpper).length
      · rw [if_pos hseen]
        have hnall := (seen_length_iff _ hnd _).mp hseen
        refine iff_of_false (by simp) ?_
        rintro ⟨_, _, hall⟩
        apply hnall
        intro st hst
        obtain ⟨st0, hst0, rfl⟩ := List.mem_map.mp hst
        obtain ⟨e, hemem, hene, hnorm, t, ht, htn, hw1, hw2⟩ := hall st0 hst0
        refine ⟨e, ?_, hene, hnorm⟩
        rw [List.mem_filter]
        exact ⟨hemem, (windowKeep_iff _ _).mpr ⟨t, ht, htn, hw1, hw2⟩⟩
      · rw [if_neg hseen]
        have hall0 : ∀ st ∈ qq.passingThrough.map pyUpper,
            ∃ e ∈ (allEventsOf rc).filter (windowKeep qq.inTimePeriod),
              ¬e.atStation.isEmpty ∧ normStation e = st := by
          by_contra hq
          exact hseen ((seen_length_iff _ hnd _).mpr hq)
        constructor
        · intro hr
          refine ⟨hr, fun _ => hnep, ?_⟩
          intro st hst
          obtain ⟨e, hemem, hene, hnorm⟩ := hall0 (pyUpper st) (List.mem_map_of_mem pyUpper hst)
          rw [List.mem_filter] at hemem
          obtain ⟨t, ht, htn, hw1, hw2⟩ := (windowKeep_iff _ _).mp hemem.2
          exact ⟨e, hemem.1, hene, hnorm, t, ht, htn, hw1, hw2⟩
        · rintro ⟨hr, _, _⟩
          exact hr

lemma acStep_render (mode : Option String) (rc : RakeCycleE) :
    (acStep mode rc).render = true ↔ (rc.render = true ∧ acVisible mode rc.rake) := by
  unfold acStep
  by_cases h1 : mode = none ∨ mode = some "all"
  · rw [if_pos h1]
    unfold acVisible
    rcases h1 with h1 | h1 <;> simp [h1]
  · rw [if_neg h1]
    push_neg at h1
    by_cases h2 : rc.rake = none
    · rw [if_pos h2]
      refine iff_of_false (by simp) ?_
      rintro ⟨_, hv | hv | ⟨rk, hrk, _⟩⟩
      · exact h1.1 hv
      · exact h1.2 hv
      · rw [h2] at hrk
        cases hrk
    · rw [if_neg h2]
      obtain ⟨rk, hrk⟩ := Option.ne_none_iff_exists'.mp h2
      rw [hrk]
      simp only [Option.getD_some]
      by_cases h3 : mode = some "ac" ∧ rk.isAC = false
      · rw [if_pos h3]
        refine iff_of_false (by simp) ?_
        rintro ⟨_, hv | hv | ⟨rk2, hrk2, hac, _⟩⟩
        · exact h1.1 hv
        · exact h1.2 hv
        · injection hrk2 with hrk2
          subst hrk2
          rw [hac h3.1] at h3
          cases h3.2
      · rw [if_neg h3]
        by_cases h4 : mode = some "nonac" ∧ rk.isAC = true
        · rw [if_pos h4]
          refine iff_of_false (by simp) ?_
          rintro ⟨_, hv | hv | ⟨rk2, hrk2, _, hnac⟩⟩
          · exact h1.1 hv
          · exact h1.2 hv
          · injection hrk2 with hrk2
            subst hrk2
            rw [hnac h4.1] at h4
            cases h4.2
        · rw [if_neg h4]
          constructor
          · intro hr
            refine ⟨hr, Or.inr (Or.inr ⟨rk, rfl, ?_, ?_⟩)⟩
            · intro hm
              by_contra hx
              exact h3 ⟨hm, by simpa using hx⟩
            · intro hm
              by_contra hx
              exact h4 ⟨hm, by simpa using hx⟩
          · rintro ⟨hr, _⟩
            exact hr

lemma seen_lt_of_not_nodup (selected : List String) (hnd : ¬selected.Nodup)
    (el : List StationEventE) :
    (seenFold selected el).length < selected.length := by
  have hnodupS : (seenFold selected el).Nodup :=
    seenGo_nodup selected el [] List.nodup_nil
  have hsub : (seenFold selected el).toFinset ⊆ selected.toFinset := by
    intro x hx
    rw [List.mem_toFinset] at hx ⊢
    rcases (seenGo_mem selected el [] x).mp hx with h | h
    · cases h
    · exact h.1
  have h1 : (seenFold selected el).toFinset.card = (seenFold selected el).length :=
    List.toFinset_card_of_nodup hnodupS
  have h2 : selected.toFinset.card = selected.dedup.length := List.card_toFinset selected
  have h3 : selected.dedup.length < selected.length := by
    have hsl : List.Sublist selected.dedup selected := List.dedup_sublist selected
    rcases Nat.lt_or_ge selected.dedup.length selected.length with h | h
    · exact h
    · exfalso
      apply hnd
      have heq : selected.dedup = selected := hsl.eq_of_length_le h
      rw [← heq]
      exact List.nodup_dedup selected
  have h4 := Finset.card_le_card hsub
  omega

lemma passStep_render_of_not_nodup (qq : FilterQueryE) (rc : RakeCycleE)
    (hnd : ¬(qq.passingThrough.map pyUpper).Nodup) :
    (passStep qq rc).render = false := by
  unfold passStep
  have hne0 : ¬(qq.passingThrough.isEmpty = true) := by
    intro h
    have : qq.passingThrough = [] := by simpa using h
    apply hnd
    rw [this]
    exact List.nodup_nil
  rw [if_neg hne0]
  by_cases hp : rc.servicePath.isEmpty
  · rw [if_pos hp]
  · rw [if_neg hp]
    rw [if_pos (seen_lt_of_not_nodup _ hnd _)]

/-- Claim C5, amended: a RAKELINK-mode pass maps `linkFilterCycle` over
the cycles; for a query whose normalized passing-through list is free of
duplicates, a cycle is visible iff its path is non-empty, its terminal
stations match the (truthy) start and end constraints, every queried
station has an event of the cycle inside the closed window, and its rake
matches the AC constraint (no rake means never visible under a set AC
constraint); a query listing the same normalized station twice leaves
every cycle invisible. -/
theorem C5_link_mode_amended :
    (∀ (qq : FilterQueryE) (cycles : List RakeCycleE),
      applyLinkFilters qq cycles = cycles.map (linkFilterCycle qq)) ∧
    (∀ (qq : FilterQueryE) (rc : RakeCycleE),
      (qq.passingThrough.map pyUpper).Nodup →
      (∀ svc ∈ rc.servicePath, svc.events ≠ []) →
      ((linkFilterCycle qq rc).render = true ↔
        (rc.servicePath ≠ [] ∧
         startEndOk qq.startStation (firstStationOf rc) ∧
         startEndOk qq.endStation (lastStationOf rc) ∧
         (∀ st ∈ qq.passingThrough, passOkAt qq rc st) ∧
         acVisible qq.ac rc.rake))) ∧
    (∀ (qq : FilterQueryE) (rc : RakeCycleE),
      ¬(qq.passingThrough.map pyUpper).Nodup →
      (linkFilterCycle qq rc).render = false) := by
  refine ⟨fun qq cycles => rfl, ?_, ?_⟩
  · intro qq rc hnd _
    unfold linkFilterCycle
    rw [acStep_render]
    rw [(passStep_fields qq _).2, (termStep_fields _ _ _).2]
    have hpass := passStep_render qq (termStep qq.startStation qq.endStation rc) hnd
    rw [(termStep_fields qq.startStation qq.endStation rc).1] at hpass
    have hpe : ∀ st, passOkAt qq (termStep qq.startStation qq.endStation rc) st ↔
        passOkAt qq rc st := by
      intro st
      unfold passOkAt allEventsOf
      rw [(termStep_fields qq.startStation qq.endStation rc).1]
    rw [hpass]
    rw [termStep_render]
    constructor
    · rintro ⟨⟨⟨hp, hs, he⟩, _, hall⟩, hac⟩
      refine ⟨hp, hs, he, ?_, hac⟩
      intro st hst
      exact (hpe st).mp (hall st hst)
    · rintro ⟨hp, hs, he, hall, hac⟩
      refine ⟨⟨⟨hp, hs, he⟩, fun _ => hp, ?_⟩, hac⟩
      intro st hst
      exact (hpe st).mpr (hall st hst)
  · intro qq rc hnd
    unfold linkFilterCycle
    have hfalse := passStep_render_of_not_nodup qq
      (termStep qq.startStation qq.endStation rc) hnd
    by_contra hx
    rw [Bool.not_eq_false] at hx
    have := (acStep_render qq.ac _).mp hx
    rw [hfalse] at this
    cases this.1

/-- The query of the C5 counterexample: the same station listed twice. -/
def c5query : FilterQueryE :=
  { startStation := none, endStation := none, passingThrough := ["DADAR", "DADAR"],
    inTimePeriod := (165, 1605), ac := none, inDirection := none }

/-- The service of the C5 counterexample: one in-window DADAR event. -/
def c5service : ServiceE :=
  { needsACRake := false
    direction := some DirectionE.up
    events := [{ atStation := "DADAR", atTime := some 500, render := true }]
    render := true }

/-- The cycle of the C5 counterexample, with an assigned rake. -/
def c5cycle : RakeCycleE :=
  { servicePath := [c5service], rake := some (mkRake 0), render := true }

/-- Counterexample to claim C5 as stated: this cycle meets every
condition of the claim (non-empty path, no terminal constraint, an
in-window event at every queried station, no AC constraint) yet the
RAKELINK pass leaves it invisible, because the duplicated query entry
makes the seen-set count fall short of the list length. -/
theorem C5_link_mode_counterexample :
    (linkFilterCycle c5query c5cycle).render = false ∧
    c5cycle.servicePath ≠ [] ∧
    startEndOk c5query.startStation (firstStationOf c5cycle) ∧
    startEndOk c5query.endStation (lastStationOf c5cycle) ∧
    (∀ st ∈ c5query.passingThrough, passOkAt c5query c5cycle st) ∧
    acVisible c5query.ac c5cycle.rake := by
  refine ⟨by decide, by decide, ?_, ?_, ?_, Or.inl rfl⟩
  · intro s h
    cases h
  · intro s h
    cases h
  · intro st hst
    have hd : st = "DADAR" := by
      rcases List.mem_cons.mp hst with rfl | hst2
      · rfl
      · rcases List.mem_cons.mp hst2 with rfl | hst3
        · rfl
        · cases hst3
    subst hd
    refine ⟨{ atStation := "DADAR", atTime := some 500, render := true },
      by decide, by decide, by decide, 500, rfl, by decide, by decide, by decide⟩

/-- Witness for the amended C5 theorem: an unconstrained query leaves a
cycle with a non-empty path visible. -/
theorem C5_link_mode_amended_witness :
    (linkFilterCycle
      { startStation := none, endStation := none, passingThrough := [],
        inTimePeriod := (165, 1605), ac := none, inDirection := none }
      c5cycle).render = true := by
  rw [C5_link_mode_amended.2.1
    { startStation := none, endStation := none, passingThrough := [],
      inTimePeriod := (165, 1605), ac := none, inDirection := none }
    c5cycle (by simp) (by decide)]
  refine ⟨by decide, ?_, ?_, ?_, Or.inl rfl⟩
  · intro s h
    cases h
  · intro s h
    cases h
  · intro st hst
    cases hst

/-! ## Chain building: `TimeTable.makeRakeCyclePathsSV` (models.py 146-192).

Nodes of the directed graph are service IDs (spec section 4.3).  The
Python dict `idMap = {sid: s for s in services for sid in s.serviceId}`
has its keys in first-occurrence order and its values overwritten by
later services; `adj` cells are last-write-wins, embedded below by
searching the reversed edge-write list.  The recursive `followChain` is
embedded with explicit fuel; the fuel-insensitivity conjunct of the C3
theorem is its termination. -/

/-- Deduplication keeping first occurrences, with the set of keys
already emitted. -/
def dedupFirstGo (seen : List SID) : List SID → List SID
  | [] => []
  | x :: rest =>
    if x ∈ seen then dedupFirstGo seen rest
    else x :: dedupFirstGo (x :: seen) rest

/-- The keys of `idMap`, in first-occurrence order. -/
def dedupFirst (l : List SID) : List SID :=
  dedupFirstGo [] l

/-- All ids declared by the services, deduplicated. -/
def pyIds (services : List SvcF) : List SID :=
  dedupFirst (services.flatMap (fun s => s.serviceId))

/-- `idMap[sid]`: the last service declaring `sid` wins. -/
def idVal (services : List SvcF) (sid : SID) : Option SvcF :=
  services.reverse.find? (fun s => sid ∈ s.serviceId)

/-- Value of a decimal digit string. -/
def digitsToNat (l : List Char) : Nat :=
  l.foldl (fun acc c => 10 * acc + digitVal c) 0

/-- `int(str(x).strip())` with fallback to the stripped string
(models.py 159-162). -/
def parseSidStr (s : String) : SID :=
  if pyStrip s.data ≠ [] ∧ (pyStrip s.data).all Char.isDigit then
    SID.num (digitsToNat (pyStrip s.data))
  else SID.tok (String.mk (pyStrip s.data))

/-- Python truthiness of an optional service id (`None`, `0` and the
empty token are falsy). -/
def truthySid : Option SID → Bool
  | none => false
  | some (.num n) => n ≠ 0
  | some (.tok s) => !s.isEmpty

/-- The directed edges `(sv.serviceId[0], nextId)` in write order:
one pass over `idMap.values()`, skipping falsy `linkedTo` and targets
not registered in `idMap` (models.py 154-168). -/
def edgesOf (services : List SvcF) : List (SID × SID) :=
  (pyIds services).filterMap (fun sid =>
    match idVal services sid with
    | none => none
    | some sv =>
      if truthyStr sv.linkedTo = false then none
      else
        if parseSidStr (sv.linkedTo.getD "") ∈ pyIds services then
          some (sv.serviceId.headD (SID.num 0), parseSidStr (sv.linkedTo.getD ""))
        else none)

/-- `adj[x]['next']` after all writes (last write wins). -/
def nextOf (edges : List (SID × SID)) (x : SID) : Option SID :=
  (edges.reverse.find? (fun p => p.1 = x)).map (fun p => p.2)

/-- `adj[x]['prev']` after all writes (last write wins). -/
def prevOf (edges : List (SID × SID)) (x : SID) : Option SID :=
  (edges.reverse.find? (fun p => p.2 = x)).map (fun p => p.1)

/-- The id graph of `makeRakeCyclePathsSV`. -/
structure Graph where
  ids : List SID
  edges : List (SID × SID)

/-- The graph built from the services. -/
def mkGraph (services : List SvcF) : Graph :=
  { ids := pyIds services, edges := edgesOf services }

/-- `followChain` (models.py 172-179) with explicit fuel, returning the
chain (as ids) and the updated visited set. -/
def followChain (g : Graph) : Nat → List SID → SID → List SID × List SID
  | 0, visited, _ => ([], visited)
  | fuel + 1, visited, sid =>
    if sid ∈ visited ∨ sid ∉ g.ids then ([], visited)
    else if truthySid (nextOf g.edges sid) then
      ((sid :: (followChain g fuel (sid :: visited) ((nextOf g.edges sid).getD (SID.num 0))).1),
       (followChain g fuel (sid :: visited) ((nextOf g.edges sid).getD (SID.num 0))).2)
    else ([sid], sid :: visited)

/-- The outer loop of `makeRakeCyclePathsSV` (models.py 181-192) over
the remaining keys, accumulating `(allCyclesWtt, visited)`. -/
def buildGo (g : Graph) (fuel : Nat) : List SID → List (List SID) × List SID →
    List (List SID) × List SID
  | [], acc => acc
  | sid :: rest, acc =>
    if sid ∈ acc.2 then buildGo g fuel rest acc
    else if prevOf g.edges sid ≠ none then buildGo g fuel rest acc
    else if nextOf g.edges sid = none then buildGo g fuel rest acc
    else
      buildGo g fuel rest
        (if (followChain g fuel acc.2 sid).1 ≠ [] then
          (acc.1 ++ [(followChain g fuel acc.2 sid).1], (followChain g fuel acc.2 sid).2)
         else (acc.1, (followChain g fuel acc.2 sid).2))

/-- One full pass over `idMap`'s keys. -/
def buildChains (g : Graph) (fuel : Nat) : List (List SID) × List SID :=
  buildGo g fuel g.ids ([], [])

/-- `makeRakeCyclePathsSV`, as the list of id chains appended to
`allCyclesWtt` (enough fuel for every node). -/
def makeRakeCyclePathsSV (services : List SvcF) : List (List SID) :=
  (buildChains (mkGraph services) ((mkGraph services).ids.length + 1)).1

lemma dedupFirstGo_mem :
    ∀ (l : List SID) (seen : List SID) (x : SID),
      x ∈ dedupFirstGo seen l ↔ x ∈ l ∧ x ∉ seen := by
  intro l
  induction l with
  | nil =>
    intro seen x
    simp [dedupFirstGo]
  | cons a rest ih =>
    intro seen x
    rw [dedupFirstGo]
    by_cases ha : a ∈ seen
    · rw [if_pos ha, ih]
      constructor
      · rintro ⟨h1, h2⟩
        exact ⟨List.mem_cons_of_mem a h1, h2⟩
      · rintro ⟨h1, h2⟩
        rcases List.mem_cons.mp h1 with rfl | h1
        · exact absurd ha h2
        · exact ⟨h1, h2⟩
    · rw [if_neg ha]
      rw [List.mem_cons, ih]
      constructor
      · rintro (rfl | ⟨h1, h2⟩)
        · exact ⟨List.mem_cons_self x rest, ha⟩
        · refine ⟨List.mem_cons_of_mem a h1, fun hs => h2 (List.mem_cons_of_mem a hs)⟩
      · rintro ⟨h1, h2⟩
        rcases List.mem_cons.mp h1 with rfl | h1
        · exact Or.inl rfl
        · by_cases hxa : x = a
          · exact Or.inl hxa
          · refine Or.inr ⟨h1, fun hs => ?_⟩
            rcases List.mem_cons.mp hs with h | h
            · exact hxa h
            · exact h2 h

lemma dedupFirstGo_nodup :
    ∀ (l : List SID) (seen : List SID), (dedupFirstGo seen l).Nodup := by
  intro l
  induction l with
  | nil => intro seen; exact List.nodup_nil
  | cons a rest ih =>
    intro seen
    rw [dedupFirstGo]
    by_cases ha : a ∈ seen
    · rw [if_pos ha]
      exact ih seen
    · rw [if_neg ha]
      refine List.nodup_cons.mpr ⟨?_, ih (a :: seen)⟩
      intro hmem
      exact ((dedupFirstGo_mem rest (a :: seen) a).mp hmem).2 (List.mem_cons_self a seen)

lemma dedupFirst_mem (l : List SID) (x : SID) : x ∈ dedupFirst l ↔ x ∈ l := by
  rw [dedupFirst, dedupFirstGo_mem]
  simp

lemma dedupFirst_nodup (l : List SID) : (dedupFirst l).Nodup :=
  dedupFirstGo_nodup l []

lemma prevOf_eq_none_iff (edges : List (SID × SID)) (x : SID) :
    prevOf edges x = none ↔ ∀ p ∈ edges, p.2 ≠ x := by
  unfold prevOf
  rw [Option.map_eq_none', List.find?_eq_none]
  constructor
  · intro h p hp
    have := h p (List.mem_reverse.mpr hp)
    simpa using this
  · intro h p hp
    have := h p (List.mem_reverse.mp hp)
    simpa using this

lemma nextOf_ne_none_iff (edges : List (SID × SID)) (x : SID) :
    nextOf edges x ≠ none ↔ ∃ p ∈ edges, p.1 = x := by
  unfold nextOf
  rw [Ne, Option.map_eq_none', ← Ne, Option.ne_none_iff_isSome, List.find?_isSome]
  constructor
  · rintro ⟨p, hp, hpx⟩
    exact ⟨p, List.mem_reverse.mp hp, by simpa using hpx⟩
  · rintro ⟨p, hp, hpx⟩
    exact ⟨p, List.mem_reverse.mpr hp, by simpa using hpx⟩

lemma prev_of_next (edges : List (SID × SID)) (y x : SID)
    (h : nextOf edges y = some x) : prevOf edges x ≠ none := by
  unfold nextOf at h
  rw [Option.map_eq_some'] at h
  obtain ⟨p, hp, hpx⟩ := h
  have hpmem : p ∈ edges := List.mem_reverse.mp (List.mem_of_find?_eq_some hp)
  intro hnone
  rw [prevOf_eq_none_iff] at hnone
  exact hnone p hpmem hpx

lemma fc_visited_mono (g : Graph) :
    ∀ (fuel : Nat) (v : List SID) (sid x : SID), x ∈ v →
      x ∈ (followChain g fuel v sid).2 := by
  intro fuel
  induction fuel with
  | zero => intro v sid x hx; exact hx
  | succ f ih =>
    intro v sid x hx
    rw [followChain]
    by_cases h1 : sid ∈ v ∨ sid ∉ g.ids
    · rw [if_pos h1]; exact hx
    · rw [if_neg h1]
      by_cases h2 : truthySid (nextOf g.edges sid) = true
      · rw [if_pos h2]
        exact ih _ _ x (List.mem_cons_of_mem sid hx)
      · rw [if_neg h2]
        exact List.mem_cons_of_mem sid hx

lemma fc_mem_visited (g : Graph) :
    ∀ (fuel : Nat) (v : List SID) (sid x : SID),
      x ∈ (followChain g fuel v sid).2 ↔
        (x ∈ (followChain g fuel v sid).1 ∨ x ∈ v) := by
  intro fuel
  induction fuel with
  | zero => intro v sid x; simp [followChain]
  | succ f ih =>
    intro v sid x
    rw [followChain]
    by_cases h1 : sid ∈ v ∨ sid ∉ g.ids
    · rw [if_pos h1]; simp
    · rw [if_neg h1]
      by_cases h2 : truthySid (nextOf g.edges sid) = true
      · rw [if_pos h2]
        simp only [List.mem_cons]
        rw [ih]
        simp only [List.mem_cons]
        tauto
      · rw [if_neg h2]
        simp only [List.mem_cons, List.mem_singleton]
        tauto

lemma fc_chain_not_visited (g : Graph) :
    ∀ (fuel : Nat) (v : List SID) (sid x : SID),
      x ∈ (followChain g fuel v sid).1 → x ∉ v := by
  intro fuel
  induction fuel with
  | zero => intro v sid x hx; cases hx
  | succ f ih =>
    intro v sid x hx
    rw [followChain] at hx
    by_cases h1 : sid ∈ v ∨ sid ∉ g.ids
    · rw [if_pos h1] at hx; cases hx
    · rw [if_neg h1] at hx
      push_neg at h1
      by_cases h2 : truthySid (nextOf g.edges sid) = true
      · rw [if_pos h2] at hx
        rcases List.mem_cons.mp hx with rfl | hx2
        · exact h1.1
        · intro hv
          exact ih _ _ x hx2 (List.mem_cons_of_mem sid hv)
      · rw [if_neg h2] at hx
        rw [List.mem_singleton] at hx
        subst hx
        exact h1.1

lemma fc_chain_nodup (g : Graph) :
    ∀ (fuel : Nat) (v : List SID) (sid : SID), (followChain g fuel v sid).1.Nodup := by
  intro fuel
  induction fuel with
  | zero => intro v sid; exact List.nodup_nil
  | succ f ih =>
    intro v sid
    rw [followChain]
    by_cases h1 : sid ∈ v ∨ sid ∉ g.ids
    · rw [if_pos h1]; exact List.nodup_nil
    · rw [if_neg h1]
      by_cases h2 : truthySid (nextOf g.edges sid) = true
      · rw [if_pos h2]
        refine List.nodup_cons.mpr ⟨?_, ih _ _⟩
        intro hmem
        exact fc_chain_not_visited g f _ _ sid hmem (List.mem_cons_self sid v)
      · rw [if_neg h2]
        exact List.nodup_singleton sid

lemma fc_chain_ids (g : Graph) :
    ∀ (fuel : Nat) (v : List SID) (sid x : SID),
      x ∈ (followChain g fuel v sid).1 → x ∈ g.ids := by
  intro fuel
  induction fuel with
  | zero => intro v sid x hx; cases hx
  | succ f ih =>
    intro v sid x hx
    rw [followChain] at hx
    by_cases h1 : sid ∈ v ∨ sid ∉ g.ids
    · rw [if_pos h1] at hx; cases hx
    · rw [if_neg h1] at hx
      push_neg at h1
      by_cases h2 : truthySid (nextOf g.edges sid) = true
      · rw [if_pos h2] at hx
        rcases List.mem_cons.mp hx with rfl | hx2
        · exact h1.2
        · exact ih _ _ x hx2
      · rw [if_neg h2] at hx
        rw [List.mem_singleton] at hx
        subst hx
        exact h1.2

lemma truthySid_some (o : Option SID) (h : truthySid o = true) : ∃ x, o = some x := by
  cases o with
  | none => cases h
  | some x => exact ⟨x, rfl⟩

lemma fc_shape (g : Graph) :
    ∀ (fuel : Nat) (v : List SID) (sid : SID),
      (followChain g fuel v sid).1 = [] ∨
      ∃ c, (followChain g fuel v sid).1 = sid :: c ∧
        ∀ x ∈ c, prevOf g.edges x ≠ none := by
  intro fuel
  induction fuel with
  | zero => intro v sid; exact Or.inl rfl
  | succ f ih =>
    intro v sid
    rw [followChain]
    by_cases h1 : sid ∈ v ∨ sid ∉ g.ids
    · rw [if_pos h1]; exact Or.inl rfl
    · rw [if_neg h1]
      by_cases h2 : truthySid (nextOf g.edges sid) = true
      · rw [if_pos h2]
        obtain ⟨n, hn⟩ := truthySid_some _ h2
        have hgd : (nextOf g.edges sid).getD (SID.num 0) = n := by rw [hn]; rfl
        refine Or.inr ⟨(followChain g f (sid :: v) ((nextOf g.edges sid).getD (SID.num 0))).1,
          rfl, ?_⟩
        intro x hx
        rcases ih (sid :: v) ((nextOf g.edges sid).getD (SID.num 0)) with hnil | ⟨c2, hc2, hprev⟩
        · rw [hnil] at hx
          cases hx
        · rw [hc2] at hx
          rcases List.mem_cons.mp hx with rfl | hx2
          · rw [hgd]
            exact prev_of_next g.edges sid n hn
          · exact hprev x hx2
      · rw [if_neg h2]
        exact Or.inr ⟨[], rfl, by intro x hx; cases hx⟩

lemma fc_nonempty (g : Graph) (fuel : Nat) (v : List SID) (sid : SID)
    (hf : 0 < fuel) (hv : sid ∉ v) (hid : sid ∈ g.ids) :
    (followChain g fuel v sid).1 ≠ [] := by
  cases fuel with
  | zero => cases hf
  | succ f =>
    rw [followChain]
    rw [if_neg (by push_neg; exact ⟨hv, hid⟩)]
    by_cases h2 : truthySid (nextOf g.edges sid) = true
    · rw [if_pos h2]
      simp
    · rw [if_neg h2]
      simp

/-- The number of registered ids not yet visited. -/
def unvis (g : Graph) (v : List SID) : Nat :=
  (g.ids.filter (fun x => x ∉ v)).length

lemma count_cons :
    ∀ (l : List SID), l.Nodup → ∀ (a : SID) (v : List SID), a ∈ l → a ∉ v →
      (l.filter (fun x => x ∉ a :: v)).length + 1 = (l.filter (fun x => x ∉ v)).length := by
  intro l
  induction l with
  | nil =>
    intro _ a v ha _
    cases ha
  | cons b rest ih =>
    intro hnd a v ha hav
    have hnd2 := List.nodup_cons.mp hnd
    by_cases hb : b = a
    · subst hb
      rw [List.filter_cons, List.filter_cons,
        if_neg (by simp), if_pos (by simpa using hav)]
      have hcong : List.filter (fun x => decide (x ∉ b :: v)) rest =
          List.filter (fun x => decide (x ∉ v)) rest := by
        apply List.filter_congr
        intro x hx
        have hxb : x ≠ b := by
          intro h
          subst h
          exact hnd2.1 hx
        simp only [List.mem_cons, decide_eq_decide]
        constructor
        · intro h hv2
          exact h (Or.inr hv2)
        · intro h h2
          rcases h2 with h2 | h2
          · exact hxb h2
          · exact h h2
      rw [hcong, List.length_cons]
    · have ha2 : a ∈ rest := by
        rcases List.mem_cons.mp ha with h | h
        · exact absurd h.symm hb
        · exact h
      by_cases hbv : b ∈ v
      · rw [List.filter_cons, List.filter_cons,
          if_neg (by simp [List.mem_cons, hbv]), if_neg (by simp [hbv])]
        exact ih hnd2.2 a v ha2 hav
      · rw [List.filter_cons, List.filter_cons,
          if_pos (by simp [List.mem_cons, hb, hbv]), if_pos (by simp [hbv])]
        simp only [List.length_cons]
        have := ih hnd2.2 a v ha2 hav
        omega

lemma unvis_lt (g : Graph) (hnd : g.ids.Nodup) (sid : SID) (v : List SID)
    (hin : sid ∈ g.ids) (hout : sid ∉ v) : unvis g (sid :: v) + 1 = unvis g v :=
  count_cons g.ids hnd sid v hin hout

lemma unvis_le (g : Graph) (v : List SID) : unvis g v ≤ g.ids.length :=
  List.length_filter_le _ _

lemma fc_fuel_succ (g : Graph) (hnd : g.ids.Nodup) :
    ∀ (fuel : Nat) (v : List SID) (sid : SID), unvis g v < fuel →
      followChain g fuel v sid = followChain g (fuel + 1) v sid := by
  intro fuel
  induction fuel with
  | zero =>
    intro v sid h
    exact absurd h (Nat.not_lt_zero _)
  | succ f ih =>
    intro v sid h
    conv_lhs => rw [followChain]
    conv_rhs => rw [followChain]
    by_cases h1 : sid ∈ v ∨ sid ∉ g.ids
    · rw [if_pos h1, if_pos h1]
    · rw [if_neg h1, if_neg h1]
      push_neg at h1
      by_cases h2 : truthySid (nextOf g.edges sid) = true
      · rw [if_pos h2, if_pos h2]
        have hlt : unvis g (sid :: v) < f := by
          have := unvis_lt g hnd sid v h1.2 h1.1
          omega
        rw [ih (sid :: v) _ hlt]
      · rw [if_neg h2, if_neg h2]

lemma fc_fuel_add (g : Graph) (hnd : g.ids.Nodup) :
    ∀ (k fuel : Nat) (v : List SID) (sid : SID), unvis g v < fuel →
      followChain g fuel v sid = followChain g (fuel + k) v sid := by
  intro k
  induction k with
  | zero => intro fuel v sid _; rfl
  | succ k ih =>
    intro fuel v sid h
    rw [ih fuel v sid h, fc_fuel_succ g hnd (fuel + k) v sid (by omega)]
    rfl

lemma fc_fuel_any (g : Graph) (hnd : g.ids.Nodup) (f1 f2 : Nat) (v : List SID)
    (sid : SID) (h1 : unvis g v < f1) (h2 : unvis g v < f2) :
    followChain g f1 v sid = followChain g f2 v sid := by
  rcases Nat.le_total f1 f2 with h | h
  · have h3 := fc_fuel_add g hnd (f2 - f1) f1 v sid h1
    rwa [Nat.add_sub_cancel' h] at h3
  · have h3 := fc_fuel_add g hnd (f1 - f2) f2 v sid h2
    rw [Nat.add_sub_cancel' h] at h3
    exact h3.symm

lemma buildGo_fuel (g : Graph) (hnd : g.ids.Nodup) (f1 f2 : Nat)
    (h1 : g.ids.length < f1) (h2 : g.ids.length < f2) :
    ∀ (rest : List SID) (acc : List (List SID) × List SID),
      buildGo g f1 rest acc = buildGo g f2 rest acc := by
  intro rest
  induction rest with
  | nil => intro acc; rfl
  | cons sid rest ih =>
    intro acc
    simp only [buildGo]
    have hfc : followChain g f1 acc.2 sid = followChain g f2 acc.2 sid :=
      fc_fuel_any g hnd f1 f2 acc.2 sid
        (lt_of_le_of_lt (unvis_le g acc.2) h1)
        (lt_of_le_of_lt (unvis_le g acc.2) h2)
    by_cases c1 : sid ∈ acc.2
    · rw [if_pos c1, if_pos c1]
      exact ih acc
    · rw [if_neg c1, if_neg c1]
      by_cases c2 : prevOf g.edges sid ≠ none
      · rw [if_pos c2, if_pos c2]
        exact ih acc
      · rw [if_neg c2, if_neg c2]
        by_cases c3 : nextOf g.edges sid = none
        · rw [if_pos c3, if_pos c3]
          exact ih acc
        · rw [if_neg c3, if_neg c3, hfc]
          exact ih _

lemma buildGo_spec (g : Graph) (fuel : Nat) (hf : 0 < fuel) :
    ∀ (rest : List SID) (acc : List (List SID) × List SID),
      rest.Nodup → (∀ x ∈ rest, x ∈ g.ids) →
      acc.1.flatten.Nodup →
      (∀ x ∈ acc.1.flatten, x ∈ acc.2) →
      (∀ x ∈ acc.2, prevOf g.edges x ≠ none ∨ x ∉ rest) →
      (buildGo g fuel rest acc).1.flatten.Nodup ∧
      (buildGo g fuel rest acc).1.length =
        acc.1.length + (rest.filter (fun sid =>
          decide (prevOf g.edges sid = none) &&
          decide (nextOf g.edges sid ≠ none))).length := by
  intro rest
  induction rest with
  | nil =>
    intro acc _ _ h1 _ _
    exact ⟨h1, by simp [buildGo]⟩
  | cons sid rest ih =>
    intro acc hnd hsub h1 h2 h3
    have hnd2 := List.nodup_cons.mp hnd
    have hsub2 : ∀ x ∈ rest, x ∈ g.ids := fun x hx => hsub x (List.mem_cons_of_mem sid hx)
    have h3weak : ∀ x ∈ acc.2, prevOf g.edges x ≠ none ∨ x ∉ rest := by
      intro x hx
      rcases h3 x hx with h | h
      · exact Or.inl h
      · exact Or.inr (fun hin => h (List.mem_cons_of_mem sid hin))
    simp only [buildGo]
    rw [List.filter_cons]
    by_cases c1 : sid ∈ acc.2
    · have hpr : prevOf g.edges sid ≠ none := by
        rcases h3 sid c1 with h | h
        · exact h
        · exact absurd (List.mem_cons_self sid rest) h
      rw [if_pos c1, if_neg (by simp [hpr])]
      exact ih acc hnd2.2 hsub2 h1 h2 h3weak
    · rw [if_neg c1]
      by_cases c2 : prevOf g.edges sid ≠ none
      · rw [if_pos c2, if_neg (by simp [c2])]
        exact ih acc hnd2.2 hsub2 h1 h2 h3weak
      · rw [if_neg c2]
        push_neg at c2
        by_cases c3 : nextOf g.edges sid = none
        · rw [if_pos c3, if_neg (by simp [c3])]
          exact ih acc hnd2.2 hsub2 h1 h2 h3weak
        · have hchne : (followChain g fuel acc.2 sid).1 ≠ [] :=
            fc_nonempty g fuel acc.2 sid hf c1 (hsub sid (List.mem_cons_self sid rest))
          rw [if_neg c3, if_pos hchne,
            if_pos (show (decide (prevOf g.edges sid = none) &&
              decide (nextOf g.edges sid ≠ none)) = true by simp [c2, c3])]
          have hH1 : ((acc.1 ++ [(followChain g fuel acc.2 sid).1]).flatten).Nodup := by
            rw [List.flatten_append, List.flatten_cons, List.flatten_nil, List.append_nil]
            refine List.Nodup.append h1 (fc_chain_nodup g fuel acc.2 sid) ?_
            intro a ha hb
            exact fc_chain_not_visited g fuel acc.2 sid a hb (h2 a ha)
          have hH2 : ∀ x ∈ (acc.1 ++ [(followChain g fuel acc.2 sid).1]).flatten,
              x ∈ (followChain g fuel acc.2 sid).2 := by
            intro x hx
            rw [List.flatten_append, List.flatten_cons, List.flatten_nil,
              List.append_nil, List.mem_append] at hx
            rcases hx with hx | hx
            · exact fc_visited_mono g fuel acc.2 sid x (h2 x hx)
            · exact (fc_mem_visited g fuel acc.2 sid x).mpr (Or.inl hx)
          have hH3 : ∀ x ∈ (followChain g fuel acc.2 sid).2,
              prevOf g.edges x ≠ none ∨ x ∉ rest := by
            intro x hx
            rcases (fc_mem_visited g fuel acc.2 sid x).mp hx with hx | hx
            · rcases fc_shape g fuel acc.2 sid with hnil | ⟨c, hc, hprev⟩
              · rw [hnil] at hx
                cases hx
              · rw [hc] at hx
                rcases List.mem_cons.mp hx with rfl | hx2
                · exact Or.inr hnd2.1
                · exact Or.inl (hprev x hx2)
            · exact h3weak x hx
          have hres := ih (acc.1 ++ [(followChain g fuel acc.2 sid).1],
            (followChain g fuel acc.2 sid).2) hnd2.2 hsub2 hH1 hH2 hH3
          refine ⟨hres.1, ?_⟩
          rw [hres.2]
          have hlen : (acc.1 ++ [(followChain g fuel acc.2 sid).1],
              (followChain g fuel acc.2 sid).2).1.length = acc.1.length + 1 := by
            simp
          rw [hlen, List.length_cons]
          omega

/-- Claim C3: chain following terminates (the result is insensitive to
any fuel at least `ids.length + 1`, one step per node); every id node is
placed in at most one chain at most once (the chains' concatenation is
duplicate-free); and the number of produced chains equals the number of
id nodes with no predecessor and at least one successor -- proved for
every input graph, cyclic ones included, which subsumes the claim's
acyclic case. -/
theorem C3_link_resolver :
    ∀ services : List SvcF,
      (∀ fuel, (mkGraph services).ids.length + 1 ≤ fuel →
        buildChains (mkGraph services) fuel =
          buildChains (mkGraph services) ((mkGraph services).ids.length + 1)) ∧
      (makeRakeCyclePathsSV services).flatten.Nodup ∧
      (makeRakeCyclePathsSV services).length =
        ((mkGraph services).ids.filter (fun x =>
          decide (∀ p ∈ (mkGraph services).edges, p.2 ≠ x) &&
          decide (∃ p ∈ (mkGraph services).edges, p.1 = x))).length := by
  intro services
  have hnd : (mkGraph services).ids.Nodup := dedupFirst_nodup _
  have hspec := buildGo_spec (mkGraph services) ((mkGraph services).ids.length + 1)
    (Nat.succ_pos _) (mkGraph services).ids ([], []) hnd (fun x hx => hx)
    List.nodup_nil (by intro x hx; cases hx) (by intro x hx; cases hx)
  refine ⟨?_, hspec.1, ?_⟩
  · intro fuel hfuel
    unfold buildChains
    exact buildGo_fuel (mkGraph services) hnd fuel ((mkGraph services).ids.length + 1)
      (by omega) (by omega) (mkGraph services).ids ([], [])
  · rw [show (makeRakeCyclePathsSV services).length =
        (buildGo (mkGraph services) ((mkGraph services).ids.length + 1)
          (mkGraph services).ids ([], [])).1.length from rfl]
    rw [hspec.2]
    simp only [List.length_nil, Nat.zero_add]
    congr 1
    apply List.filter_congr
    intro x _
    rw [Bool.eq_iff_iff]
    simp only [Bool.and_eq_true, decide_eq_true_eq]
    rw [prevOf_eq_none_iff, nextOf_ne_none_iff]

/-- Witness for C3 at a concrete graph: two services linked into one
chain. -/
theorem C3_link_resolver_witness :
    buildChains (mkGraph
      [⟨[SID.num 93001], some "93002"⟩, ⟨[SID.num 93002], none⟩]) 5 =
    buildChains (mkGraph
      [⟨[SID.num 93001], some "93002"⟩, ⟨[SID.num 93002], none⟩])
      ((mkGraph [⟨[SID.num 93001], some "93002"⟩, ⟨[SID.num 93002], none⟩]).ids.length + 1) :=
  (C3_link_resolver [⟨[SID.num 93001], some "93002"⟩, ⟨[SID.num 93002], none⟩]).1
    5 (by decide)

end Gardi
